import Mathlib

/-!
Shallow embedding of the relational-algebra execution core in
`src/query/relation.rs` (cozodb 0.7.2), together with theorems checking the
specification's claims about it.

Conventions of the embedding:
* Lazy tuple iterators (`TupleIter`) are modelled as finite lists of items,
  each item being `Except Err Tuple`; all the iterator adaptors used by the
  source (`map_ok`, `filter_map_ok`, `flatten_ok`, `flatten_err`, ...) are
  element-wise, so list semantics coincides with pull semantics.
* Rust panics (`unwrap`, `expect`, `panic!`, `unreachable!`) reached while an
  iterator is constructed or driven are modelled by `Option`: `none` means the
  pipeline panics.  The one exception is positional tuple indexing
  (`tuple.0[i]` / `tuple.0.get(i).unwrap()`), which is modelled totally with
  `List.getD` since no claim concerns out-of-bounds positions.
* `iter()` returning `Result<TupleIter>` is modelled by an `Except Err` layer
  below the panic layer (`IterResult`).
* External collaborators whose sources are not under `src/` (the expression
  evaluator, the storage scans, the temp store, the derived/stored relation
  stores) are modelled from the spec as structures of functions, left
  abstract wherever the claims allow it.
-/

namespace RelAlg

/-- Modelled from the spec: source span carried by diagnostics (the parser's
`SourceSpan` type is not under `src/`); the core only constructs and forwards
spans. -/
structure SourceSpan where
  lo : Nat
  hi : Nat
deriving DecidableEq

/-- Modelled from the spec: a named logical variable (`Symbol`, not under
`src/`); only its name equality is observable in the core. -/
abbrev Symbol := String

/-- Modelled from the spec: the dynamic value type (`DataValue`, not under
`src/`): a sum type with distinguished `Null` (minimum) and `Bot` (maximum)
sentinels, entity ids convertible to and from values, and list values. -/
inductive DataValue where
  | null
  | bool (b : Bool)
  | num (n : Int)
  | str (s : String)
  | entity (eid : Nat)
  | list (xs : List DataValue)
  | bot

mutual

def DataValue.decEq : (a b : DataValue) → Decidable (a = b)
  | .null, .null => .isTrue rfl
  | .bool a, .bool b =>
    if h : a = b then .isTrue (by rw [h]) else .isFalse (by simp [h])
  | .num a, .num b =>
    if h : a = b then .isTrue (by rw [h]) else .isFalse (by simp [h])
  | .str a, .str b =>
    if h : a = b then .isTrue (by rw [h]) else .isFalse (by simp [h])
  | .entity a, .entity b =>
    if h : a = b then .isTrue (by rw [h]) else .isFalse (by simp [h])
  | .list xs, .list ys =>
    match DataValue.decEqList xs ys with
    | .isTrue h => .isTrue (by rw [h])
    | .isFalse h => .isFalse (by simp [h])
  | .bot, .bot => .isTrue rfl
  | .null, .bool _ | .null, .num _ | .null, .str _ | .null, .entity _
  | .null, .list _ | .null, .bot => .isFalse nofun
  | .bool _, .null | .bool _, .num _ | .bool _, .str _ | .bool _, .entity _
  | .bool _, .list _ | .bool _, .bot => .isFalse nofun
  | .num _, .null | .num _, .bool _ | .num _, .str _ | .num _, .entity _
  | .num _, .list _ | .num _, .bot => .isFalse nofun
  | .str _, .null | .str _, .bool _ | .str _, .num _ | .str _, .entity _
  | .str _, .list _ | .str _, .bot => .isFalse nofun
  | .entity _, .null | .entity _, .bool _ | .entity _, .num _
  | .entity _, .str _ | .entity _, .list _ | .entity _, .bot => .isFalse nofun
  | .list _, .null | .list _, .bool _ | .list _, .num _ | .list _, .str _
  | .list _, .entity _ | .list _, .bot => .isFalse nofun
  | .bot, .null | .bot, .bool _ | .bot, .num _ | .bot, .str _
  | .bot, .entity _ | .bot, .list _ => .isFalse nofun

def DataValue.decEqList : (a b : List DataValue) → Decidable (a = b)
  | [], [] => .isTrue rfl
  | [], _ :: _ => .isFalse nofun
  | _ :: _, [] => .isFalse nofun
  | x :: xs, y :: ys =>
    match DataValue.decEq x y, DataValue.decEqList xs ys with
    | .isTrue h1, .isTrue h2 => .isTrue (by rw [h1, h2])
    | .isFalse h1, _ => .isFalse (by simp [h1])
    | _, .isFalse h2 => .isFalse (by simp [h2])

end

instance : DecidableEq DataValue := DataValue.decEq

/-- Modelled from the spec: `DataValue::get_entity_id` (not under `src/`) —
a value used where an entity is required yields its id only when it is an
entity value. -/
def DataValue.get_entity_id : DataValue → Option Nat
  | .entity eid => some eid
  | _ => none

/-- Modelled from the spec: `DataValue::get_list` (not under `src/`) — spread
unification requires a list value. -/
def DataValue.get_list : DataValue → Option (List DataValue)
  | .list xs => some xs
  | _ => none

/-- Modelled from the spec: `EntityId::as_datavalue` (not under `src/`). -/
def EntityId.as_datavalue (eid : Nat) : DataValue := .entity eid

/-- A tuple is an ordered sequence of values (`Tuple(Vec<DataValue>)`). -/
abbrev Tuple := List DataValue

/-- The error kinds observable from the core: the two diagnostics the core
itself constructs, plus opaque errors forwarded unchanged from the expression
evaluator and from storage scans. -/
inductive Err where
  | EntityIdExpected (v : DataValue) (span : SourceSpan)
  | BadSpreadUnification (span : SourceSpan)
  | Forwarded (msg : String)
deriving DecidableEq

/-- The rendered diagnostic message of each error kind (from the `#[error]`
attributes in the source). -/
def Err.message : Err → String
  | .EntityIdExpected _ _ => "Found value while iterating, unacceptable for an Entity ID"
  | .BadSpreadUnification _ => "Invalid spread unification"
  | .Forwarded m => m

instance {ε α : Type} [DecidableEq ε] [DecidableEq α] : DecidableEq (Except ε α) :=
  fun a b =>
    match a, b with
    | .ok x, .ok y =>
      if h : x = y then .isTrue (by rw [h]) else .isFalse (by simp [h])
    | .error x, .error y =>
      if h : x = y then .isTrue (by rw [h]) else .isFalse (by simp [h])
    | .ok _, .error _ => .isFalse nofun
    | .error _, .ok _ => .isFalse nofun

/-- One element of a tuple iterator: `Result<Tuple>`. -/
abbrev Item := Except Err Tuple

/-- The result of constructing and draining an operator's iterator:
`none` models a panic; `some (.error e)` models `iter()` itself returning
`Err(e)`; `some (.ok items)` is the drained stream. -/
abbrev IterResult := Option (Except Err (List Item))

/-- Modelled from the spec: the expression evaluator's surface consumed by the
core (`Expr` in `src/data/expr.rs`, not under `src/`): `eval`, `eval_pred`,
`eval_bound` (partial evaluation with left-tuple substitution, yielding a
reduced expression) and `bindings`. -/
inductive Expr : Type where
  | mk (eval : Tuple → Except Err DataValue)
       (eval_pred : Tuple → Except Err Bool)
       (eval_bound : Tuple → Except Err Expr)
       (bindings : List Symbol)

def Expr.eval : Expr → Tuple → Except Err DataValue
  | .mk f _ _ _ => f

def Expr.eval_pred : Expr → Tuple → Except Err Bool
  | .mk _ f _ _ => f

def Expr.eval_bound : Expr → Tuple → Except Err Expr
  | .mk _ _ f _ => f

def Expr.bindings : Expr → List Symbol
  | .mk _ _ _ bs => bs

/-- Modelled from the spec: the two bound-consolidation helpers consumed from
`src/data/expr.rs` (not under `src/`): `compute_bounds(filters, cols)` and
`compute_single_bound(filters, col)` compute per-column `(lower, upper)`
pairs, where `Null` means unbounded below and `Bot` unbounded above.  The
core treats them as black boxes, so they are carried as function parameters
of the embedding. -/
structure ExprOps where
  compute_bounds :
    List Expr → List Symbol → Except Err (List DataValue × List DataValue)
  compute_single_bound :
    List Expr → Symbol → Except Err (Option (DataValue × DataValue))

/-- Modelled from the spec: attribute value-type metadata (`val_type`), of
which the core only consults `is_ref_type()`. -/
structure ValType where
  is_ref_type : Bool

/-- Modelled from the spec: attribute indexing metadata (`indexing`), of which
the core only consults `should_index()`. -/
structure Indexing where
  should_index : Bool

/-- Modelled from the spec: bitemporal validity, opaque to the core. -/
abbrev Validity := Nat

/-- Modelled from the spec: the attribute catalog entry consumed by the core:
`id`, `with_history`, `val_type.is_ref_type()`, `indexing.should_index()`,
`name`. -/
structure Attribute where
  id : Nat
  with_history : Bool
  val_type : ValType
  indexing : Indexing
  name : String

/-- Identifier of a derived-relation store. -/
abbrev DerivedRelStoreId := Nat

/-- Constructor-rank used by the modelled value ordering. -/
def DataValue.rank : DataValue → Nat
  | .null => 0
  | .bool _ => 1
  | .num _ => 2
  | .str _ => 3
  | .entity _ => 4
  | .list _ => 5
  | .bot => 6

mutual

/-- Modelled from the spec: the total order on values (`DataValue: Ord`, not
under `src/`): `Null` is minimum, `Bot` is maximum, same-kind values compare
by contents, lists lexicographically. -/
def DataValue.cmp : DataValue → DataValue → Ordering
  | .bool a, .bool b => compare a b
  | .num a, .num b => compare a b
  | .str a, .str b => compare a b
  | .entity a, .entity b => compare a b
  | .list a, .list b => DataValue.cmpList a b
  | a, b => compare a.rank b.rank

def DataValue.cmpList : List DataValue → List DataValue → Ordering
  | [], [] => .eq
  | [], _ :: _ => .lt
  | _ :: _, [] => .gt
  | x :: xs, y :: ys =>
    match DataValue.cmp x y with
    | .eq => DataValue.cmpList xs ys
    | o => o

end

/-- Modelled from the spec: the scoped, key-ordered temp store
(`tx.new_temp_store(span)`, construction out of scope for the core): rows are
kept in key order, `put(tuple, 0)` inserts keyed by the whole tuple, and
`scan_prefix` yields the rows extending a prefix, in order. -/
structure TempStore where
  rows : List Tuple

def TempStore.insertSorted (t : Tuple) : List Tuple → List Tuple
  | [] => [t]
  | r :: rs =>
    match DataValue.cmpList t r with
    | .lt => t :: r :: rs
    | .eq => r :: rs
    | .gt => r :: TempStore.insertSorted t rs

def TempStore.put (s : TempStore) (t : Tuple) (_epoch : Nat) : TempStore :=
  ⟨TempStore.insertSorted t s.rows⟩

def TempStore.scan_pfx (s : TempStore) (p : Tuple) : List Item :=
  (s.rows.filter (fun r => p.isPrefixOf r)).map Except.ok

/-- Modelled from the spec: the transaction's ordered triple cursors and
existence check consumed by the core (`SessionTx`, not under `src/`).  Every
scan is a function of its arguments yielding a finite fallible sequence;
`triple_a*`/`triple_ae*` cursors yield `(attr, entity, value)` fragments while
`triple_av*`/`triple_vref*` cursors yield `(attr, value, entity)` fragments. -/
structure SessionTx where
  triple_a_scan : Nat → List (Except Err (Nat × Nat × DataValue))
  triple_a_before_scan : Nat → Validity → List (Except Err (Nat × Nat × DataValue))
  triple_ae_scan : Nat → Nat → List (Except Err (Nat × Nat × DataValue))
  triple_ae_before_scan : Nat → Nat → Validity → List (Except Err (Nat × Nat × DataValue))
  triple_ae_range_scan :
    Nat → Nat → DataValue → DataValue → List (Except Err (Nat × Nat × DataValue))
  triple_ae_range_before_scan :
    Nat → Nat → DataValue → DataValue → Validity → List (Except Err (Nat × Nat × DataValue))
  triple_av_scan : Nat → DataValue → List (Except Err (Nat × DataValue × Nat))
  triple_av_before_scan : Nat → DataValue → Validity → List (Except Err (Nat × DataValue × Nat))
  triple_av_range_scan :
    Nat → DataValue → DataValue → List (Except Err (Nat × DataValue × Nat))
  triple_av_range_before_scan :
    Nat → DataValue → DataValue → Validity → List (Except Err (Nat × DataValue × Nat))
  triple_vref_a_scan : Nat → Nat → List (Except Err (Nat × DataValue × Nat))
  triple_vref_a_before_scan : Nat → Nat → Validity → List (Except Err (Nat × DataValue × Nat))
  aev_exists : Nat → Nat → DataValue → Validity → Except Err Bool

/-- Modelled from the spec: `tx.new_temp_store(span)` yields a fresh empty
scoped temp store. -/
def SessionTx.new_temp_store (_tx : SessionTx) (_span : SourceSpan) : TempStore :=
  ⟨[]⟩

/-- Modelled from the spec: the derived-relation store consumed by the core:
epoch-indexed scans plus the epoch-less `scan_prefix` used by the negated
join, and the store id used for the delta check. -/
structure DerivedRelStore where
  id : DerivedRelStoreId
  rule_name : String
  scan_all_for_epoch : Nat → List Item
  scan_pfx_for_epoch : Tuple → Nat → List Item
  scan_bounded_pfx_for_epoch :
    Tuple → List DataValue → List DataValue → Nat → List Item
  scan_pfx : Tuple → List Item

/-- Modelled from the spec: the persisted-relation storage handle consumed by
the core: `scan_all`, `scan_prefix` and `scan_bounded_prefix`, each borrowing
the transaction. -/
structure RelationMetadata where
  name : String
  scan_all : SessionTx → List Item
  scan_pfx : SessionTx → Tuple → List Item
  scan_bounded_pfx :
    SessionTx → Tuple → List DataValue → List DataValue → List Item

/-- `map_ok` on a fallible sequence: transforms the payload of `Ok` items and
forwards errors unchanged. -/
def mapOk (f : α → β) (l : List (Except Err α)) : List (Except Err β) :=
  l.map (fun x => match x with
    | .ok v => .ok (f v)
    | .error e => .error e)

/-- `map_ok` with a fallible body followed by `flatten_err`: each `Ok` item is
replaced by the body's result, errors pass through. -/
def okThen (f : α → Except Err β) (l : List (Except Err α)) : List (Except Err β) :=
  l.map (fun x => match x with
    | .ok v => f v
    | .error e => .error e)

/-- The `map_ok(..) . map(flatten_err) . flatten_ok . map(flatten_err)`
composition used for per-tuple sub-scans: an `Ok` item expands to the
sub-sequence the body produces, an error stays a single error item. -/
def okFlat (f : α → List (Except Err β)) (l : List (Except Err α)) :
    List (Except Err β) :=
  l.flatMap (fun x => match x with
    | .ok v => f v
    | .error e => [.error e])

/-- The `map_ok(..) . map(flatten_err) . filter_map(invert_option_err)`
composition used by the negative joins: the body may fail (one error item),
drop the tuple (`none`), or keep one tuple. -/
def okOptThen (f : α → Except Err (Option β)) (l : List (Except Err α)) :
    List (Except Err β) :=
  l.flatMap (fun x => match x with
    | .error e => [.error e]
    | .ok v =>
      match f v with
      | .error e => [.error e]
      | .ok none => []
      | .ok (some w) => [.ok w])

/-- `eliminate_from_tuple`: drop the positions listed in `eliminate_indices`
(the source skips the walk when the set is empty, which we mirror). -/
def eliminate_from_tuple (ret : Tuple) (eliminate_indices : List Nat) : Tuple :=
  if eliminate_indices.isEmpty then ret
  else
    ((ret.zipWith (fun v i => (i, v)) (List.range ret.length)).filterMap
      (fun p => if eliminate_indices.contains p.1 then none else some p.2))

/-- `get_eliminate_indices`: positions of the bindings that occur in the
eliminate set. -/
def get_eliminate_indices (bindings : List Symbol) (eliminate : List Symbol) :
    List Nat :=
  ((bindings.zipWith (fun b i => (i, b)) (List.range bindings.length)).filterMap
    (fun p => if eliminate.contains p.2 then some p.1 else none))

/-- Conjunctive evaluation of a predicate list on one tuple: first `false`
wins, first error wins, otherwise `true`. -/
def eval_preds (preds : List Expr) (t : Tuple) : Except Err Bool :=
  match preds with
  | [] => .ok true
  | p :: rest =>
    match p.eval_pred t with
    | .ok false => .ok false
    | .error e => .error e
    | .ok true => eval_preds rest t

/-- `filter_iter`: apply a filter list to each `Ok` tuple; a failing predicate
yields one error item for that tuple, errors pass through, and iteration
continues with the remaining items. -/
def filter_iter (filters : List Expr) (it : List Item) : List Item :=
  it.flatMap (fun x => match x with
    | .error e => [.error e]
    | .ok t =>
      match eval_preds filters t with
      | .ok true => [.ok t]
      | .ok false => []
      | .error e => [.error e])

/-- `InlineFixedRA`: constant tuples with their bindings and eliminate set. -/
structure InlineFixedRA where
  bindings : List Symbol
  data : List (List DataValue)
  to_eliminate : List Symbol

/-- The unit relation: no columns, one empty row. -/
def InlineFixedRA.unit : InlineFixedRA := ⟨[], [[]], []⟩

/-- `InlineFixedRA::do_eliminate_temp_vars`: record every binding not in
`used`. -/
def InlineFixedRA.do_eliminate_temp_vars (f : InlineFixedRA) (used : List Symbol) :
    InlineFixedRA :=
  { f with to_eliminate := f.to_eliminate ++ f.bindings.filter (fun b => !used.contains b) }

/-- One grouping step of the in-memory right mapping (`BTreeMap` keyed by the
right-key projection; rows of one key keep insertion order). -/
def addToMapping (m : List (List DataValue × List (List DataValue)))
    (k : List DataValue) (row : List DataValue) :
    List (List DataValue × List (List DataValue)) :=
  match m with
  | [] => [(k, [row])]
  | (k', rs) :: rest =>
    if k' = k then (k', rs ++ [row]) :: rest else (k', rs) :: addToMapping rest k row

/-- The in-memory map of the multi-row `InlineFixed` join: every data row is
grouped under its right-key projection. -/
def buildRightMapping (data : List (List DataValue)) (right_join_indices : List Nat) :
    List (List DataValue × List (List DataValue)) :=
  data.foldl
    (fun m row => addToMapping m (right_join_indices.map (fun v => row.getD v .null)) row)
    []

/-- Key lookup in the modelled in-memory map. -/
def lookupMapping (m : List (List DataValue × List (List DataValue)))
    (k : List DataValue) : Option (List (List DataValue)) :=
  match m with
  | [] => none
  | (k', rs) :: rest => if k' = k then some rs else lookupMapping rest k

/-- `InlineFixedRA::join`: the three strategies on the row count of the
constant data (empty / key-equality filter / in-memory map). -/
def InlineFixedRA.join (f : InlineFixedRA) (left_iter : List Item)
    (left_join_indices right_join_indices : List Nat)
    (eliminate_indices : List Nat) : List Item :=
  if f.data.isEmpty then []
  else if f.data.length == 1 then
    let data := f.data.headD []
    let right_join_values := right_join_indices.map (fun v => data.getD v .null)
    left_iter.flatMap (fun x => match x with
      | .error e => [.error e]
      | .ok tuple =>
        let left_join_values := left_join_indices.map (fun v => tuple.getD v .null)
        if left_join_values = right_join_values then
          [.ok (eliminate_from_tuple (tuple ++ data) eliminate_indices)]
        else [])
  else
    let right_mapping := buildRightMapping f.data right_join_indices
    left_iter.flatMap (fun x => match x with
      | .error e => [.error e]
      | .ok tuple =>
        let left_join_values := left_join_indices.map (fun v => tuple.getD v .null)
        match lookupMapping right_mapping left_join_values with
        | none => []
        | some rows => rows.map (fun right_values => .ok (tuple ++ right_values)))

/-- `TripleRA`: the EAV pattern `(e, a, v)` for a fixed attribute at a
validity, producing the two columns `[e, v]`. -/
structure TripleRA where
  attr : Attribute
  vld : Validity
  bindings : List Symbol
  filters : List Expr
  span : SourceSpan

/-- `TripleRA::return_filtered_iter`: apply the node's residual filters and
then project away its eliminate indices. -/
def TripleRA.return_filtered_iter (t : TripleRA) (it : List Item)
    (eliminate_indices : List Nat) : List Item :=
  match t.filters.isEmpty, eliminate_indices.isEmpty with
  | true, true => it
  | true, false => mapOk (fun r => eliminate_from_tuple r eliminate_indices) it
  | false, true => filter_iter t.filters it
  | false, false =>
    mapOk (fun r => eliminate_from_tuple r eliminate_indices) (filter_iter t.filters it)

/-- The general (per-left-tuple) block of `TripleRA::cartesian_join`: an
indexed attribute re-checks `compute_single_bound` and takes the value-range
scan when it tightens, otherwise the full attribute scan runs. -/
def TripleRA.cartesian_general (t : TripleRA) (left_iter : List Item) (tx : SessionTx)
    (ops : ExprOps) : List Item :=
  okFlat (fun tuple =>
    let ranged : Option (DataValue × DataValue) :=
      if t.attr.indexing.should_index then
        match ops.compute_single_bound t.filters (t.bindings.getD 1 "") with
        | .ok (some b) => some b
        | _ => none
      else none
    match ranged with
    | some (l_bound, u_bound) =>
      (if t.attr.with_history then
        tx.triple_av_range_before_scan t.attr.id l_bound u_bound t.vld
      else tx.triple_av_range_scan t.attr.id l_bound u_bound).map
        (fun x => match x with
          | .error e => Except.error e
          | .ok (_, val, e_id) => Except.ok (tuple ++ [EntityId.as_datavalue e_id, val]))
    | none =>
      (if t.attr.with_history then tx.triple_a_before_scan t.attr.id t.vld
      else tx.triple_a_scan t.attr.id).map
        (fun x => match x with
          | .error e => Except.error e
          | .ok (_, e_id, val) => Except.ok (tuple ++ [EntityId.as_datavalue e_id, val])))
    left_iter

/-- `TripleRA::cartesian_join` (`[f, f]`): an indexed attribute with filters
first asks `compute_single_bound` eagerly (an error here fails iterator
construction); a tight bound selects the value-range scan, otherwise the
general block runs per left tuple. -/
def TripleRA.cartesian_join (t : TripleRA) (left_iter : List Item) (tx : SessionTx)
    (ops : ExprOps) (eliminate_indices : List Nat) : Except Err (List Item) :=
  if t.attr.indexing.should_index && !t.filters.isEmpty then
    match ops.compute_single_bound t.filters (t.bindings.getD 1 "") with
    | .error e => .error e
    | .ok (some (l_bound, u_bound)) =>
      .ok (t.return_filtered_iter
        (okFlat (fun tuple =>
          (if t.attr.with_history then
            tx.triple_av_range_before_scan t.attr.id l_bound u_bound t.vld
          else tx.triple_av_range_scan t.attr.id l_bound u_bound).map
            (fun x => match x with
              | .error e => Except.error e
              | .ok (_, val, e_id) => Except.ok (tuple ++ [EntityId.as_datavalue e_id, val])))
          left_iter)
        eliminate_indices)
    | .ok none =>
      .ok (t.return_filtered_iter (TripleRA.cartesian_general t left_iter tx ops)
        eliminate_indices)
  else
    .ok (t.return_filtered_iter (TripleRA.cartesian_general t left_iter tx ops)
      eliminate_indices)

/-- `TripleRA::ev_join` (`[b, b]`, actually a filter through `aev_exists`). -/
def TripleRA.ev_join (t : TripleRA) (left_iter : List Item)
    (left_e_idx left_v_idx : Nat) (tx : SessionTx)
    (eliminate_indices : List Nat) : List Item :=
  t.return_filtered_iter
    (okOptThen (fun tuple =>
      let dv := tuple.getD left_e_idx .null
      match dv.get_entity_id with
      | none => .error (.EntityIdExpected dv t.span)
      | some eid =>
        let v := tuple.getD left_v_idx .null
        match tx.aev_exists t.attr.id eid v t.vld with
        | .error e => .error e
        | .ok ex =>
          if ex then .ok (some (tuple ++ [EntityId.as_datavalue eid, v])) else .ok none)
      left_iter)
    eliminate_indices

/-- `TripleRA::neg_ev_join`: drop the left tuple when the triple exists. -/
def TripleRA.neg_ev_join (t : TripleRA) (left_iter : List Item)
    (left_e_idx left_v_idx : Nat) (tx : SessionTx)
    (eliminate_indices : List Nat) : List Item :=
  okOptThen (fun tuple =>
    let dv := tuple.getD left_e_idx .null
    match dv.get_entity_id with
    | none => .error (.EntityIdExpected dv t.span)
    | some eid =>
      let v := tuple.getD left_v_idx .null
      match tx.aev_exists t.attr.id eid v t.vld with
      | .error e => .error e
      | .ok ex =>
        if ex then .ok none
        else .ok (some (eliminate_from_tuple tuple eliminate_indices)))
    left_iter

/-- `Itertools::try_collect` on a fallible map: the first failing element
fails the whole collection. -/
def try_collect {α β : Type} (f : α → Except Err β) : List α → Except Err (List β)
  | [] => .ok []
  | a :: rest =>
    match f a with
    | .error e => .error e
    | .ok b =>
      match try_collect f rest with
      | .error e => .error e
      | .ok bs => .ok (b :: bs)

/-- The per-tuple bound computation of `TripleRA::e_join` including its
panic behaviour: `none` models the `unwrap` panic (a failing `eval_bound`, or
`compute_bounds` succeeding with an empty bound vector); a `compute_bounds`
error is logged and sets the `no_bound_found` flag; a computed head bound is
used only when it is not the open bound `(Null, Bot)`. -/
def TripleRA.e_join_bounds_step (t : TripleRA) (ops : ExprOps) (no_bound_found : Bool)
    (tuple : Tuple) : Option (Bool × Option (DataValue × DataValue)) :=
  if !t.filters.isEmpty && !no_bound_found then
    match try_collect (fun f => f.eval_bound tuple) t.filters with
    | .error _ => none
    | .ok reduced_filters =>
      match ops.compute_bounds reduced_filters (t.bindings.drop 1) with
      | .ok (l_bounds, r_bounds) =>
        match l_bounds.head?, r_bounds.head? with
        | some l_bound, some r_bound =>
          some (no_bound_found,
            if l_bound ≠ DataValue.null ∨ r_bound ≠ DataValue.bot then
              some (l_bound, r_bound)
            else none)
        | some _, none => none
        | none, _ => none
      | .error _ => some (true, none)
  else some (no_bound_found, none)

/-- The driver loop of `TripleRA::e_join`, threading the `no_bound_found`
flag through the left stream. -/
def TripleRA.e_join_go (t : TripleRA) (left_e_idx : Nat) (tx : SessionTx)
    (ops : ExprOps) : Bool → List Item → Option (List Item)
  | _, [] => some []
  | nbf, .error e :: rest =>
    (TripleRA.e_join_go t left_e_idx tx ops nbf rest).map (fun r => .error e :: r)
  | nbf, .ok tuple :: rest =>
    match TripleRA.e_join_bounds_step t ops nbf tuple with
    | none => none
    | some (nbf2, bounds) =>
      let contrib : List Item :=
        let dv := tuple.getD left_e_idx .null
        match dv.get_entity_id with
        | none => [.error (.EntityIdExpected dv t.span)]
        | some eid =>
          let scan : List (Except Err (Nat × Nat × DataValue)) :=
            match bounds with
            | some (l_bound, r_bound) =>
              if t.attr.with_history then
                tx.triple_ae_range_before_scan t.attr.id eid l_bound r_bound t.vld
              else tx.triple_ae_range_scan t.attr.id eid l_bound r_bound
            | none =>
              if t.attr.with_history then tx.triple_ae_before_scan t.attr.id eid t.vld
              else tx.triple_ae_scan t.attr.id eid
          scan.map
            (fun x => match x with
              | .error e => Except.error e
              | .ok (_, eid2, val) => Except.ok (tuple ++ [EntityId.as_datavalue eid2, val]))
      (TripleRA.e_join_go t left_e_idx tx ops nbf2 rest).map (fun r => contrib ++ r)

/-- `TripleRA::e_join` (`[b, f]`): per-tuple range pushdown followed by the
entity-bound scan, then residual filters and elimination. -/
def TripleRA.e_join (t : TripleRA) (left_iter : List Item) (left_e_idx : Nat)
    (tx : SessionTx) (ops : ExprOps) (eliminate_indices : List Nat) :
    Option (List Item) :=
  (TripleRA.e_join_go t left_e_idx tx ops false left_iter).map
    (fun it => t.return_filtered_iter it eliminate_indices)

/-- `TripleRA::neg_e_join`: keep the left tuple iff the entity-bound scan is
empty. -/
def TripleRA.neg_e_join (t : TripleRA) (left_iter : List Item) (left_e_idx : Nat)
    (tx : SessionTx) (eliminate_indices : List Nat) : List Item :=
  okOptThen (fun tuple =>
    let dv := tuple.getD left_e_idx .null
    match dv.get_entity_id with
    | none => .error (.EntityIdExpected dv t.span)
    | some eid =>
      match (if t.attr.with_history then tx.triple_ae_before_scan t.attr.id eid t.vld
             else tx.triple_ae_scan t.attr.id eid).head? with
      | none => .ok (some (eliminate_from_tuple tuple eliminate_indices))
      | some (.ok _) => .ok none
      | some (.error e) => .error e)
    left_iter

/-- `TripleRA::v_ref_join` (`[f, b]`, reference value): the `vref` index scan
keyed by the bound value's entity id. -/
def TripleRA.v_ref_join (t : TripleRA) (left_iter : List Item) (left_v_idx : Nat)
    (tx : SessionTx) (eliminate_indices : List Nat) : List Item :=
  t.return_filtered_iter
    (okFlat (fun tuple =>
      let dv := tuple.getD left_v_idx .null
      match dv.get_entity_id with
      | none => [.error (.EntityIdExpected dv t.span)]
      | some v_eid =>
        (if t.attr.with_history then tx.triple_vref_a_before_scan v_eid t.attr.id t.vld
         else tx.triple_vref_a_scan v_eid t.attr.id).map
          (fun x => match x with
            | .error e => Except.error e
            | .ok (_, _, e_id) =>
              Except.ok (tuple ++ [EntityId.as_datavalue e_id, EntityId.as_datavalue v_eid])))
      left_iter)
    eliminate_indices

/-- `TripleRA::neg_v_ref_join`. -/
def TripleRA.neg_v_ref_join (t : TripleRA) (left_iter : List Item) (left_v_idx : Nat)
    (tx : SessionTx) (eliminate_indices : List Nat) : List Item :=
  okOptThen (fun tuple =>
    let dv := tuple.getD left_v_idx .null
    match dv.get_entity_id with
    | none => .error (.EntityIdExpected dv t.span)
    | some v_eid =>
      match (if t.attr.with_history then tx.triple_vref_a_before_scan v_eid t.attr.id t.vld
             else tx.triple_vref_a_scan v_eid t.attr.id).head? with
      | none => .ok (some (eliminate_from_tuple tuple eliminate_indices))
      | some (.ok _) => .ok none
      | some (.error e) => .error e)
    left_iter

/-- `TripleRA::v_index_join` (`[f, b]`, indexed value): the `av` index scan
keyed by the bound value. -/
def TripleRA.v_index_join (t : TripleRA) (left_iter : List Item) (left_v_idx : Nat)
    (tx : SessionTx) (eliminate_indices : List Nat) : List Item :=
  t.return_filtered_iter
    (okFlat (fun tuple =>
      let val := tuple.getD left_v_idx .null
      (if t.attr.with_history then tx.triple_av_before_scan t.attr.id val t.vld
       else tx.triple_av_scan t.attr.id val).map
        (fun x => match x with
          | .error e => Except.error e
          | .ok (_, val2, eid) => Except.ok (tuple ++ [EntityId.as_datavalue eid, val2])))
      left_iter)
    eliminate_indices

/-- `TripleRA::neg_v_index_join`. -/
def TripleRA.neg_v_index_join (t : TripleRA) (left_iter : List Item) (left_v_idx : Nat)
    (tx : SessionTx) (eliminate_indices : List Nat) : List Item :=
  okOptThen (fun tuple =>
    let val := tuple.getD left_v_idx .null
    match (if t.attr.with_history then tx.triple_av_before_scan t.attr.id val t.vld
           else tx.triple_av_scan t.attr.id val).head? with
    | none => .ok (some (eliminate_from_tuple tuple eliminate_indices))
    | some (.ok _) => .ok none
    | some (.error e) => .error e)
    left_iter

/-- The scan loop of `TripleRA::neg_v_no_index_join`: walk the full attribute
scan and report whether an equal value occurs (errors propagate). -/
def TripleRA.neg_v_no_index_loop (val : DataValue) :
    List (Except Err (Nat × Nat × DataValue)) → Except Err Bool
  | [] => .ok false
  | .error e :: _ => .error e
  | .ok (_, _, found_val) :: rest =>
    if val = found_val then .ok true else TripleRA.neg_v_no_index_loop val rest

/-- `TripleRA::neg_v_no_index_join`. -/
def TripleRA.neg_v_no_index_join (t : TripleRA) (left_iter : List Item)
    (left_v_idx : Nat) (tx : SessionTx) (eliminate_indices : List Nat) : List Item :=
  okOptThen (fun tuple =>
    let val := tuple.getD left_v_idx .null
    match TripleRA.neg_v_no_index_loop val
      (if t.attr.with_history then tx.triple_a_before_scan t.attr.id t.vld
       else tx.triple_a_scan t.attr.id) with
    | .error e => .error e
    | .ok true => .ok none
    | .ok false => .ok (some (eliminate_from_tuple tuple eliminate_indices)))
    left_iter

/-- Materialization loop of `TripleRA::v_no_index_join`: store each scanned
triple as `[value, entity]` in the temp store, aborting with a single error
on the first failing scan item. -/
def TripleRA.v_no_index_collect :
    List (Except Err (Nat × Nat × DataValue)) → TempStore → Except Err TempStore
  | [], s => .ok s
  | .error e :: _, _ => .error e
  | .ok (_, eid, val) :: rest, s =>
    TripleRA.v_no_index_collect rest (s.put [val, EntityId.as_datavalue eid] 0)

/-- `TripleRA::v_no_index_join` (`[f, b]`, unindexed value): materialize the
full attribute scan keyed by value into a temp store, then look each left
tuple's value prefix up.  NOTE: faithful to the source, the closure pops only
the stored entity id and pushes that single value onto the left tuple. -/
def TripleRA.v_no_index_join (t : TripleRA) (left_iter : List Item)
    (left_v_idx : Nat) (tx : SessionTx) (eliminate_indices : List Nat) : List Item :=
  let throwaway := tx.new_temp_store ⟨0, 0⟩
  match TripleRA.v_no_index_collect
      (if t.attr.with_history then tx.triple_a_before_scan t.attr.id t.vld
       else tx.triple_a_scan t.attr.id) throwaway with
  | .error e => [.error e]
  | .ok filled =>
    t.return_filtered_iter
      (okFlat (fun tuple =>
        let val := tuple.getD left_v_idx .null
        ( filled.scan_pfx [val]).map
          (fun x => match x with
            | .error e => Except.error e
            | .ok found =>
              let v_eid := (found.getLast?).getD .null
              Except.ok (tuple ++ [v_eid])))
        left_iter)
      eliminate_indices

/-- `TripleRA::join`: dispatch a positive join on how many right columns are
bound and which; impossible index shapes panic. -/
def TripleRA.join (t : TripleRA) (left_iter : List Item)
    (left_join_indices right_join_indices : List Nat) (tx : SessionTx)
    (ops : ExprOps) (eliminate_indices : List Nat) :
    Option (Except Err (List Item)) :=
  match right_join_indices.length with
  | 0 => some (t.cartesian_join left_iter tx ops eliminate_indices)
  | 2 =>
    let right_first := right_join_indices.headD 0
    let right_second := right_join_indices.getLastD 0
    let left_first := left_join_indices.headD 0
    let left_second := left_join_indices.getLastD 0
    match right_first, right_second with
    | 0, 1 => some (.ok (t.ev_join left_iter left_first left_second tx eliminate_indices))
    | 1, 0 => some (.ok (t.ev_join left_iter left_second left_first tx eliminate_indices))
    | _, _ => none
  | 1 =>
    if right_join_indices.headD 0 == 0 then
      (t.e_join left_iter (left_join_indices.headD 0) tx ops eliminate_indices).map .ok
    else if t.attr.val_type.is_ref_type then
      some (.ok (t.v_ref_join left_iter (left_join_indices.headD 0) tx eliminate_indices))
    else if t.attr.indexing.should_index then
      some (.ok (t.v_index_join left_iter (left_join_indices.headD 0) tx eliminate_indices))
    else
      some (.ok (t.v_no_index_join left_iter (left_join_indices.headD 0) tx eliminate_indices))
  | _ => none

/-- `TripleRA::neg_join`: dispatch the anti-join variants. -/
def TripleRA.neg_join (t : TripleRA) (left_iter : List Item)
    (left_join_indices right_join_indices : List Nat) (tx : SessionTx)
    (eliminate_indices : List Nat) : Option (List Item) :=
  match right_join_indices.length with
  | 2 =>
    let right_first := right_join_indices.headD 0
    let right_second := right_join_indices.getLastD 0
    let left_first := left_join_indices.headD 0
    let left_second := left_join_indices.getLastD 0
    match right_first, right_second with
    | 0, 1 => some (t.neg_ev_join left_iter left_first left_second tx eliminate_indices)
    | 1, 0 => some (t.neg_ev_join left_iter left_second left_first tx eliminate_indices)
    | _, _ => none
  | 1 =>
    if right_join_indices.headD 0 == 0 then
      some (t.neg_e_join left_iter (left_join_indices.headD 0) tx eliminate_indices)
    else if t.attr.val_type.is_ref_type then
      some (t.neg_v_ref_join left_iter (left_join_indices.headD 0) tx eliminate_indices)
    else if t.attr.indexing.should_index then
      some (t.neg_v_index_join left_iter (left_join_indices.headD 0) tx eliminate_indices)
    else
      some (t.neg_v_no_index_join left_iter (left_join_indices.headD 0) tx eliminate_indices)
  | _ => none

/-- `TripleRA::iter`: a full scan is a cartesian join against the unit
stream. -/
def TripleRA.iter (t : TripleRA) (tx : SessionTx) (ops : ExprOps) :
    Option (Except Err (List Item)) :=
  t.join [Except.ok []] [] [] tx ops []

/-- Stable insertion of an `(position, value)` pair by value (the embedding
of `sort_by_key`, which is stable). -/
def insertPairByVal (p : Nat × Nat) : List (Nat × Nat) → List (Nat × Nat)
  | [] => [p]
  | q :: qs => if q.2 < p.2 then q :: insertPairByVal p qs else p :: q :: qs

/-- Stable sort of `(position, value)` pairs by value. -/
def sortPairsByVal : List (Nat × Nat) → List (Nat × Nat)
  | [] => []
  | p :: ps => insertPairByVal p (sortPairsByVal ps)

/-- The `left_to_prefix_indices` computation of the positive prefix joins:
enumerate `right_join_indices`, sort the pairs by the right position, and
read the left index of every pair. -/
def left_to_pfx_indices_full (left_join_indices right_join_indices : List Nat) :
    List Nat :=
  (sortPairsByVal right_join_indices.enum).map (fun p => left_join_indices.getD p.1 0)

/-- The truncated walk of the negated joins: sorted pairs are consumed while
the right position equals its sorted rank, and the walk stops at the first
mismatch. -/
def takeRanked : Nat → List (Nat × Nat) → List Nat
  | _, [] => []
  | ord, p :: rest => if ord = p.2 then p.1 :: takeRanked (ord + 1) rest else []

/-- The `left_to_prefix_indices` computation of the negated joins
(`RelationRA::neg_join` and `DerivedRA::neg_join` duplicate this code): only
the contiguous prefix portion of `right_join_indices` contributes. -/
def left_to_pfx_indices_neg (left_join_indices right_join_indices : List Nat) :
    List Nat :=
  (takeRanked 0 (sortPairsByVal right_join_indices.enum)).map
    (fun idx => left_join_indices.getD idx 0)

/-- The inner verification loop of the negated prefix joins: walk the scanned
candidates; a candidate agreeing with the left tuple on every join column
(not only the prefix columns) drops the tuple, a failing scan item fails. -/
def neg_scan_loop (tuple : Tuple) (left_join_indices right_join_indices : List Nat) :
    List Item → Except Err Bool
  | [] => .ok false
  | .error e :: _ => .error e
  | .ok found :: rest =>
    if (left_join_indices.zip right_join_indices).all
        (fun p => tuple.getD p.1 .null == found.getD p.2 .null) then
      .ok true
    else neg_scan_loop tuple left_join_indices right_join_indices rest

/-- Insertion sort on naturals (embedding of `indices.sort()`). -/
def insertNat (n : Nat) : List Nat → List Nat
  | [] => [n]
  | m :: ms => if m < n then m :: insertNat n ms else n :: m :: ms

def sortNat : List Nat → List Nat
  | [] => []
  | n :: ns => insertNat n (sortNat ns)

/-- `join_is_prefix`: the right join indices, sorted, are exactly `0..k`. -/
def join_is_pfx (right_join_indices : List Nat) : Bool :=
  sortNat right_join_indices == List.range right_join_indices.length

/-- `RelationRA`: a persisted relation with positional columns. -/
structure RelationRA where
  bindings : List Symbol
  storage : RelationMetadata
  filters : List Expr

/-- The driver loop of `RelationRA::prefix_join`, threading the memoized
`skip_range_check` flag: once a left tuple proves that no tightening is
possible, all later tuples take the unbounded prefix scan. -/
def RelationRA.pfx_join_go (r : RelationRA) (tx : SessionTx) (ops : ExprOps)
    (left_to_prefix_indices : List Nat) (rjiLen : Nat) :
    Bool → List Item → List Item
  | _, [] => []
  | src, .error e :: rest =>
    .error e :: RelationRA.pfx_join_go r tx ops left_to_prefix_indices rjiLen src rest
  | src, .ok tuple :: rest =>
    let pfx := left_to_prefix_indices.map (fun i => tuple.getD i .null)
    if !src && !r.filters.isEmpty then
      let bounds :=
        match ops.compute_bounds r.filters (r.bindings.drop rjiLen) with
        | .ok b => b
        | .error _ => ([], [])
      if !(bounds.1.all (fun v => v == DataValue.null))
          || !(bounds.2.all (fun v => v == DataValue.bot)) then
        mapOk (fun found => tuple ++ found)
            (r.storage.scan_bounded_pfx tx pfx bounds.1 bounds.2)
          ++ RelationRA.pfx_join_go r tx ops left_to_prefix_indices rjiLen src rest
      else
        mapOk (fun found => tuple ++ found) (r.storage.scan_pfx tx pfx)
          ++ RelationRA.pfx_join_go r tx ops left_to_prefix_indices rjiLen true rest
    else
      mapOk (fun found => tuple ++ found) (r.storage.scan_pfx tx pfx)
        ++ RelationRA.pfx_join_go r tx ops left_to_prefix_indices rjiLen true rest

/-- `RelationRA::prefix_join`. -/
def RelationRA.pfx_join (r : RelationRA) (tx : SessionTx) (ops : ExprOps)
    (left_iter : List Item) (left_join_indices right_join_indices : List Nat)
    (eliminate_indices : List Nat) : List Item :=
  let l2p := left_to_pfx_indices_full left_join_indices right_join_indices
  let it := RelationRA.pfx_join_go r tx ops l2p right_join_indices.length false left_iter
  match r.filters.isEmpty, eliminate_indices.isEmpty with
  | true, true => it
  | true, false => mapOk (fun t => eliminate_from_tuple t eliminate_indices) it
  | false, true => filter_iter r.filters it
  | false, false =>
    mapOk (fun t => eliminate_from_tuple t eliminate_indices) (filter_iter r.filters it)

/-- `RelationRA::neg_join`: scan only the contiguous prefix portion, verify
all join columns, and pass surviving left tuples through with only the
`NegJoin`'s own eliminations applied. -/
def RelationRA.neg_join (r : RelationRA) (tx : SessionTx) (left_iter : List Item)
    (left_join_indices right_join_indices : List Nat)
    (eliminate_indices : List Nat) : List Item :=
  let l2p := left_to_pfx_indices_neg left_join_indices right_join_indices
  okOptThen (fun tuple =>
    let pfx := l2p.map (fun i => tuple.getD i .null)
    match neg_scan_loop tuple left_join_indices right_join_indices
        (r.storage.scan_pfx tx pfx) with
    | .error e => .error e
    | .ok true => .ok none
    | .ok false => .ok (some (eliminate_from_tuple tuple eliminate_indices)))
    left_iter

/-- `RelationRA::iter`: full scan followed by residual filters. -/
def RelationRA.iter (r : RelationRA) (tx : SessionTx) : List Item :=
  if r.filters.isEmpty then r.storage.scan_all tx
  else filter_iter r.filters (r.storage.scan_all tx)

/-- `DerivedRA`: the epoch-aware output of a recursive rule. -/
structure DerivedRA where
  bindings : List Symbol
  storage : DerivedRelStore
  filters : List Expr

/-- The `scan_epoch` selection of `DerivedRA`: the previous delta for
relations participating in the current recursive step, the accumulated
relation otherwise. -/
def DerivedRA.scan_epoch_of (epoch : Option Nat) (mem : Bool) : Nat :=
  match epoch with
  | none => 0
  | some ep => if mem then ep - 1 else 0

/-- `DerivedRA::iter`: empty at the first delta, otherwise a full scan of
`scan_epoch` followed by residual filters. -/
def DerivedRA.iter (d : DerivedRA) (epoch : Option Nat)
    (use_delta : List DerivedRelStoreId) : List Item :=
  if epoch == some 0 && use_delta.contains d.storage.id then []
  else
    let scan_epoch := DerivedRA.scan_epoch_of epoch (use_delta.contains d.storage.id)
    if d.filters.isEmpty then d.storage.scan_all_for_epoch scan_epoch
    else filter_iter d.filters (d.storage.scan_all_for_epoch scan_epoch)

/-- The driver loop of `DerivedRA::prefix_join` (the epoch-indexed twin of
`RelationRA::pfx_join_go`). -/
def DerivedRA.pfx_join_go (d : DerivedRA) (ops : ExprOps)
    (left_to_prefix_indices : List Nat) (rjiLen : Nat) (scan_epoch : Nat) :
    Bool → List Item → List Item
  | _, [] => []
  | src, .error e :: rest =>
    .error e :: DerivedRA.pfx_join_go d ops left_to_prefix_indices rjiLen scan_epoch src rest
  | src, .ok tuple :: rest =>
    let pfx := left_to_prefix_indices.map (fun i => tuple.getD i .null)
    if !src && !d.filters.isEmpty then
      let bounds :=
        match ops.compute_bounds d.filters (d.bindings.drop rjiLen) with
        | .ok b => b
        | .error _ => ([], [])
      if !(bounds.1.all (fun v => v == DataValue.null))
          || !(bounds.2.all (fun v => v == DataValue.bot)) then
        mapOk (fun found => tuple ++ found)
            (d.storage.scan_bounded_pfx_for_epoch pfx bounds.1 bounds.2 scan_epoch)
          ++ DerivedRA.pfx_join_go d ops left_to_prefix_indices rjiLen scan_epoch src rest
      else
        mapOk (fun found => tuple ++ found) (d.storage.scan_pfx_for_epoch pfx scan_epoch)
          ++ DerivedRA.pfx_join_go d ops left_to_prefix_indices rjiLen scan_epoch true rest
    else
      mapOk (fun found => tuple ++ found) (d.storage.scan_pfx_for_epoch pfx scan_epoch)
        ++ DerivedRA.pfx_join_go d ops left_to_prefix_indices rjiLen scan_epoch true rest

/-- `DerivedRA::prefix_join`. -/
def DerivedRA.pfx_join (d : DerivedRA) (ops : ExprOps) (left_iter : List Item)
    (left_join_indices right_join_indices : List Nat) (eliminate_indices : List Nat)
    (epoch : Option Nat) (use_delta : List DerivedRelStoreId) : List Item :=
  if epoch == some 0 && use_delta.contains d.storage.id then []
  else
    let l2p := left_to_pfx_indices_full left_join_indices right_join_indices
    let scan_epoch := DerivedRA.scan_epoch_of epoch (use_delta.contains d.storage.id)
    let it := DerivedRA.pfx_join_go d ops l2p right_join_indices.length scan_epoch false left_iter
    match d.filters.isEmpty, eliminate_indices.isEmpty with
    | true, true => it
    | true, false => mapOk (fun t => eliminate_from_tuple t eliminate_indices) it
    | false, true => filter_iter d.filters it
    | false, false =>
      mapOk (fun t => eliminate_from_tuple t eliminate_indices) (filter_iter d.filters it)

/-- `DerivedRA::neg_join`: the negated join is not parameterized by the epoch
or the delta set at all; it scans the store through the epoch-less
`scan_prefix`. -/
def DerivedRA.neg_join (d : DerivedRA) (left_iter : List Item)
    (left_join_indices right_join_indices : List Nat)
    (eliminate_indices : List Nat) : List Item :=
  let l2p := left_to_pfx_indices_neg left_join_indices right_join_indices
  okOptThen (fun tuple =>
    let pfx := l2p.map (fun i => tuple.getD i .null)
    match neg_scan_loop tuple left_join_indices right_join_indices
        ( d.storage.scan_pfx pfx) with
    | .error e => .error e
    | .ok true => .ok none
    | .ok false => .ok (some (eliminate_from_tuple tuple eliminate_indices)))
    left_iter

/-- The tagged operator tree.  The boxed `InnerJoin` / `NegJoin` payload
structs of the source (child nodes, `Joiner` key lists, eliminate set) are
carried inline on the constructors. -/
inductive RelAlgebra where
  | Fixed (f : InlineFixedRA)
  | Triple (t : TripleRA)
  | Derived (d : DerivedRA)
  | Relation (r : RelationRA)
  | Join (left : RelAlgebra) (right : RelAlgebra)
      (left_keys right_keys : List Symbol) (to_eliminate : List Symbol)
  | NegJoin (left : RelAlgebra) (right : RelAlgebra)
      (left_keys right_keys : List Symbol) (to_eliminate : List Symbol)
  | Reorder (relation : RelAlgebra) (new_order : List Symbol)
  | Filter (parent : RelAlgebra) (pred : List Expr) (to_eliminate : List Symbol)
  | Unification (parent : RelAlgebra) (binding : Symbol) (expr : Expr)
      (is_multi : Bool) (to_eliminate : List Symbol) (span : SourceSpan)

/-- `RelAlgebra::bindings_after_eliminate`, with the per-variant
`bindings_before_eliminate` / `eliminate_set` combination unfolded into one
recursion (`Triple`, `Derived`, `Relation` and `Reorder` carry no eliminate
set). -/
def RelAlgebra.bindings_after_eliminate : RelAlgebra → List Symbol
  | .Fixed f => f.bindings.filter (fun b => !f.to_eliminate.contains b)
  | .Triple t => t.bindings
  | .Derived d => d.bindings
  | .Relation r => r.bindings
  | .Join left right _ _ el =>
    (left.bindings_after_eliminate ++ right.bindings_after_eliminate).filter
      (fun b => !el.contains b)
  | .NegJoin left _ _ _ el =>
    left.bindings_after_eliminate.filter (fun b => !el.contains b)
  | .Reorder _ new_order => new_order
  | .Filter parent _ el =>
    parent.bindings_after_eliminate.filter (fun b => !el.contains b)
  | .Unification parent binding _ _ el _ =>
    (parent.bindings_after_eliminate ++ [binding]).filter (fun b => !el.contains b)

/-- `RelAlgebra::bindings_before_eliminate`. -/
def RelAlgebra.bindings_before_eliminate : RelAlgebra → List Symbol
  | .Fixed f => f.bindings
  | .Triple t => t.bindings
  | .Derived d => d.bindings
  | .Relation r => r.bindings
  | .Join left right _ _ _ =>
    left.bindings_after_eliminate ++ right.bindings_after_eliminate
  | .NegJoin left _ _ _ _ => left.bindings_after_eliminate
  | .Reorder _ new_order => new_order
  | .Filter parent _ _ => parent.bindings_after_eliminate
  | .Unification parent binding _ _ _ _ =>
    parent.bindings_after_eliminate ++ [binding]

/-- `RelAlgebra::eliminate_set`. -/
def RelAlgebra.eliminate_set : RelAlgebra → Option (List Symbol)
  | .Fixed f => some f.to_eliminate
  | .Triple _ => none
  | .Derived _ => none
  | .Relation _ => none
  | .Join _ _ _ _ el => some el
  | .NegJoin _ _ _ _ el => some el
  | .Reorder _ _ => none
  | .Filter _ _ el => some el
  | .Unification _ _ _ _ el _ => some el

/-- Sanity lemma: the unfolded `bindings_after_eliminate` agrees with the
source's formulation of filtering `bindings_before_eliminate` through
`eliminate_set`. -/
theorem RelAlgebra.bindings_after_eq (r : RelAlgebra) :
    r.bindings_after_eliminate =
      match r.eliminate_set with
      | some el => r.bindings_before_eliminate.filter (fun b => !el.contains b)
      | none => r.bindings_before_eliminate := by
  cases r <;> rfl

/-- The symbols added to the eliminate set by one node: every candidate
binding not contained in `used` (`BTreeSet::insert` on each). -/
def elim_additions (candidates used : List Symbol) : List Symbol :=
  candidates.filter (fun b => !used.contains b)

/-- `RelAlgebra::eliminate_temp_vars`, as a tree transform.  Each node first
extends its own eliminate set from its pre-recursion bindings, then pushes
`used` extended with its locally needed symbols into its children; the
source leaves (`Triple`, `Derived`, `Relation`) do not eliminate. -/
def RelAlgebra.eliminate_temp_vars : RelAlgebra → List Symbol → RelAlgebra
  | .Fixed f, used => .Fixed (f.do_eliminate_temp_vars used)
  | .Triple t, _ => .Triple t
  | .Derived d, _ => .Derived d
  | .Relation r, _ => .Relation r
  | .Join left right lk rk el, used =>
    let el2 := el ++ elim_additions
      (left.bindings_after_eliminate ++ right.bindings_after_eliminate) used
    let left_used := (used ++ lk) ++
      (match right with
        | .Triple t => t.filters.flatMap Expr.bindings
        | .Derived d => d.filters.flatMap Expr.bindings
        | _ => [])
    let right_used := used ++ rk
    .Join (left.eliminate_temp_vars left_used) (right.eliminate_temp_vars right_used)
      lk rk el2
  | .NegJoin left right lk rk el, used =>
    let el2 := el ++ elim_additions left.bindings_after_eliminate used
    .NegJoin (left.eliminate_temp_vars (used ++ lk)) right lk rk el2
  | .Reorder rel new_order, used => .Reorder (rel.eliminate_temp_vars used) new_order
  | .Filter parent pred el, used =>
    let el2 := el ++ elim_additions parent.bindings_before_eliminate used
    .Filter (parent.eliminate_temp_vars (used ++ pred.flatMap Expr.bindings)) pred el2
  | .Unification parent binding expr is_multi el span, used =>
    let el2 := el ++ elim_additions parent.bindings_before_eliminate used
    .Unification (parent.eliminate_temp_vars (used ++ expr.bindings)) binding expr
      is_multi el2 span

/-- Position of a symbol in a binding vector, as a `BTreeMap` built from an
enumeration resolves it (a later duplicate overwrites an earlier one); a
missing symbol is a panic at the call sites. -/
def lookup_binding (bindings : List Symbol) (s : Symbol) : Option Nat :=
  (bindings.enum.reverse.find? (fun p => p.2 == s)).map (fun p => p.1)

/-- `Joiner::join_indices`: resolve each key pair against the two binding
vectors; a missing key panics (`unwrap` on the map lookup). -/
def join_indices (left_keys right_keys : List Symbol)
    (left_bindings right_bindings : List Symbol) : Option (List Nat × List Nat) :=
  match (left_keys.zip right_keys).mapM (fun p => do
      let lp ← lookup_binding left_bindings p.1
      let rp ← lookup_binding right_bindings p.2
      pure (lp, rp)) with
  | none => none
  | some pairs => some (pairs.map (fun q => q.1), pairs.map (fun q => q.2))

/-- The per-item transform of `FilteredRA::iter`: predicates run in order on
each `Ok` tuple (a `false` drops it, an error becomes that tuple's error
item), elimination applies to survivors, upstream errors pass through, and
iteration continues after every error item. -/
def filtered_transform (pred : List Expr) (eliminate_indices : List Nat)
    (items : List Item) : List Item :=
  items.flatMap (fun x => match x with
    | .error e => [.error e]
    | .ok t =>
      match eval_preds pred t with
      | .ok true => [.ok (eliminate_from_tuple t eliminate_indices)]
      | .ok false => []
      | .error e => [.error e])

/-- The per-item transform of `UnificationRA::iter`: in spread mode the
evaluated value must be a list (else a `BadSpreadUnification` error item
carrying the node span), and each list element yields one extended output in
order; in scalar mode the single result is appended. -/
def unification_transform (expr : Expr) (is_multi : Bool) (span : SourceSpan)
    (eliminate_indices : List Nat) (items : List Item) : List Item :=
  if is_multi then
    items.flatMap (fun x => match x with
      | .error e => [.error e]
      | .ok tuple =>
        match expr.eval tuple with
        | .error e => [.error e]
        | .ok result_list =>
          match result_list.get_list with
          | none => [.error (.BadSpreadUnification span)]
          | some results =>
            results.map (fun result =>
              .ok (eliminate_from_tuple (tuple ++ [result]) eliminate_indices)))
  else
    items.map (fun x => match x with
      | .error e => .error e
      | .ok tuple =>
        match expr.eval tuple with
        | .error e => .error e
        | .ok result =>
          .ok (eliminate_from_tuple (tuple ++ [result]) eliminate_indices))

/-- `ReorderRA::iter`'s index resolution: each new-order symbol must occur in
the child's after-eliminate bindings (`expect` panic otherwise). -/
def reorder_indices (old_order new_order : List Symbol) : Option (List Nat) :=
  new_order.mapM (fun s => lookup_binding old_order s)

/-- The temp-store build of `InnerJoin::materialized_join`: each right tuple
is stored with its join-key columns first; the first failing right item
aborts the build. -/
def materialized_collect (right_store_indices : List Nat) :
    List Item → TempStore → Except Err TempStore
  | [], s => .ok s
  | .error e :: _, _ => .error e
  | .ok tuple :: rest, s =>
    materialized_collect right_store_indices rest
      (s.put (right_store_indices.map (fun i => tuple.getD i .null)) 0)

/-- The pure core of `InnerJoin::materialized_join` once both child streams
are drained: build the keyed temp store from the right stream (truncating to
a single error on a failing right item), then prefix-scan it per left tuple,
restoring the original right column order through the inverse permutation. -/
def materialized_join_core (left_items right_items : List Item)
    (left_join_indices right_join_indices : List Nat) (right_len : Nat)
    (eliminate_indices : List Nat) : List Item :=
  let right_store_indices :=
    right_join_indices ++
      ((List.range right_len).filter (fun i => !right_join_indices.contains i))
  let right_invert_indices :=
    (sortPairsByVal right_store_indices.enum).map (fun p => p.1)
  match materialized_collect right_store_indices right_items ⟨[]⟩ with
  | .error e => [.error e]
  | .ok store =>
    left_items.flatMap (fun x => match x with
      | .error e => [.error e]
      | .ok tuple =>
        let pfx := left_join_indices.map (fun i => tuple.getD i .null)
        ( store.scan_pfx pfx).map (fun y => match y with
          | .error e => Except.error e
          | .ok found =>
            Except.ok (eliminate_from_tuple
              (tuple ++ right_invert_indices.map (fun i => found.getD i .null))
              eliminate_indices)))

/-- `RelAlgebra::iter` (together with `InnerJoin::iter`, `NegJoin::iter` and
`InnerJoin::materialized_join`, whose dispatch on the right child is inlined
here): drive the whole operator tree on a transaction, an epoch and a delta
set. -/
def RelAlgebra.iter (tx : SessionTx) (ops : ExprOps) (epoch : Option Nat)
    (use_delta : List DerivedRelStoreId) : RelAlgebra → IterResult
  | .Fixed f => some (.ok (f.data.map (fun t => Except.ok t)))
  | .Triple t => TripleRA.iter t tx ops
  | .Derived d => some (.ok (d.iter epoch use_delta))
  | .Relation r => some (.ok (r.iter tx))
  | .Reorder rel new_order =>
    match RelAlgebra.iter tx ops epoch use_delta rel with
    | none => none
    | some (.error e) => some (.error e)
    | some (.ok items) =>
      match reorder_indices rel.bindings_after_eliminate new_order with
      | none => none
      | some idxs =>
        some (.ok (mapOk (fun t => idxs.map (fun i => t.getD i .null)) items))
  | .Filter parent pred el =>
    match RelAlgebra.iter tx ops epoch use_delta parent with
    | none => none
    | some (.error e) => some (.error e)
    | some (.ok items) =>
      some (.ok (filtered_transform pred
        (get_eliminate_indices parent.bindings_after_eliminate el) items))
  | .Unification parent binding expr is_multi el span =>
    match RelAlgebra.iter tx ops epoch use_delta parent with
    | none => none
    | some (.error e) => some (.error e)
    | some (.ok items) =>
      some (.ok (unification_transform expr is_multi span
        (get_eliminate_indices (parent.bindings_after_eliminate ++ [binding]) el)
        items))
  | .NegJoin left right lk rk el =>
    let elim := get_eliminate_indices left.bindings_after_eliminate el
    match right with
    | .Triple t =>
      match join_indices lk rk left.bindings_after_eliminate
          (RelAlgebra.Triple t).bindings_after_eliminate with
      | none => none
      | some (lji, rji) =>
        match RelAlgebra.iter tx ops epoch use_delta left with
        | none => none
        | some (.error e) => some (.error e)
        | some (.ok litems) =>
          match t.neg_join litems lji rji tx elim with
          | none => none
          | some out => some (.ok out)
    | .Derived d =>
      match join_indices lk rk left.bindings_after_eliminate
          (RelAlgebra.Derived d).bindings_after_eliminate with
      | none => none
      | some (lji, rji) =>
        match RelAlgebra.iter tx ops epoch use_delta left with
        | none => none
        | some (.error e) => some (.error e)
        | some (.ok litems) => some (.ok (d.neg_join litems lji rji elim))
    | .Relation rr =>
      match join_indices lk rk left.bindings_after_eliminate
          (RelAlgebra.Relation rr).bindings_after_eliminate with
      | none => none
      | some (lji, rji) =>
        match RelAlgebra.iter tx ops epoch use_delta left with
        | none => none
        | some (.error e) => some (.error e)
        | some (.ok litems) => some (.ok (rr.neg_join tx litems lji rji elim))
    | _ => none
  | .Join left right lk rk el =>
    let elim := get_eliminate_indices
      (left.bindings_after_eliminate ++ right.bindings_after_eliminate) el
    match right with
    | .Fixed f =>
      match join_indices lk rk left.bindings_after_eliminate
          (RelAlgebra.Fixed f).bindings_after_eliminate with
      | none => none
      | some (lji, rji) =>
        match RelAlgebra.iter tx ops epoch use_delta left with
        | none => none
        | some (.error e) => some (.error e)
        | some (.ok litems) => some (.ok (f.join litems lji rji elim))
    | .Triple t =>
      match join_indices lk rk left.bindings_after_eliminate
          (RelAlgebra.Triple t).bindings_after_eliminate with
      | none => none
      | some (lji, rji) =>
        match RelAlgebra.iter tx ops epoch use_delta left with
        | none => none
        | some (.error e) => some (.error e)
        | some (.ok litems) => t.join litems lji rji tx ops elim
    | .Derived d =>
      match join_indices lk rk left.bindings_after_eliminate
          (RelAlgebra.Derived d).bindings_after_eliminate with
      | none => none
      | some (lji, rji) =>
        if join_is_pfx rji then
          match RelAlgebra.iter tx ops epoch use_delta left with
          | none => none
          | some (.error e) => some (.error e)
          | some (.ok litems) =>
            some (.ok (d.pfx_join ops litems lji rji elim epoch use_delta))
        else
          match RelAlgebra.iter tx ops epoch use_delta right with
          | none => none
          | some (.error e) => some (.error e)
          | some (.ok ritems) =>
            match RelAlgebra.iter tx ops epoch use_delta left with
            | none => none
            | some (.error e) => some (.error e)
            | some (.ok litems) =>
              some (.ok (materialized_join_core litems ritems lji rji
                (RelAlgebra.Derived d).bindings_after_eliminate.length elim))
    | .Relation rr =>
      match join_indices lk rk left.bindings_after_eliminate
          (RelAlgebra.Relation rr).bindings_after_eliminate with
      | none => none
      | some (lji, rji) =>
        if join_is_pfx rji then
          match RelAlgebra.iter tx ops epoch use_delta left with
          | none => none
          | some (.error e) => some (.error e)
          | some (.ok litems) =>
            some (.ok (rr.pfx_join tx ops litems lji rji elim))
        else
          match RelAlgebra.iter tx ops epoch use_delta right with
          | none => none
          | some (.error e) => some (.error e)
          | some (.ok ritems) =>
            match RelAlgebra.iter tx ops epoch use_delta left with
            | none => none
            | some (.error e) => some (.error e)
            | some (.ok litems) =>
              some (.ok (materialized_join_core litems ritems lji rji
                (RelAlgebra.Relation rr).bindings_after_eliminate.length elim))
    | .Join _ _ _ _ _ | .Filter _ _ _ | .Unification _ _ _ _ _ _ =>
      match join_indices lk rk left.bindings_after_eliminate
          right.bindings_after_eliminate with
      | none => none
      | some (lji, rji) =>
        match RelAlgebra.iter tx ops epoch use_delta right with
        | none => none
        | some (.error e) => some (.error e)
        | some (.ok ritems) =>
          match RelAlgebra.iter tx ops epoch use_delta left with
          | none => none
          | some (.error e) => some (.error e)
          | some (.ok litems) =>
            some (.ok (materialized_join_core litems ritems lji rji
              right.bindings_after_eliminate.length elim))
    | .Reorder _ _ => none
    | .NegJoin _ _ _ _ _ => none

/-- An inert transaction fixture: every scan is empty and no triple exists. -/
def tx0 : SessionTx where
  triple_a_scan := fun _ => []
  triple_a_before_scan := fun _ _ => []
  triple_ae_scan := fun _ _ => []
  triple_ae_before_scan := fun _ _ _ => []
  triple_ae_range_scan := fun _ _ _ _ => []
  triple_ae_range_before_scan := fun _ _ _ _ _ => []
  triple_av_scan := fun _ _ => []
  triple_av_before_scan := fun _ _ _ => []
  triple_av_range_scan := fun _ _ _ => []
  triple_av_range_before_scan := fun _ _ _ _ => []
  triple_vref_a_scan := fun _ _ => []
  triple_vref_a_before_scan := fun _ _ _ => []
  aev_exists := fun _ _ _ _ => .ok false

/-- An expression-operation fixture: bound consolidation always fails, single
bounds never tighten. -/
def ops0 : ExprOps where
  compute_bounds := fun _ _ => .error (.Forwarded "no bounds")
  compute_single_bound := fun _ _ => .ok none

/-- A plain attribute fixture: id 1, no history, not a reference type, not
indexed. -/
def attr_plain : Attribute := ⟨1, false, ⟨false⟩, ⟨false⟩, "attr"⟩

/-- The operator tree of the arity violation in `v_no_index_join`: a Triple
on an unindexed non-reference attribute joined on its value column. -/
def c1_tree : RelAlgebra :=
  .Join (.Fixed ⟨["x"], [[.num 7]], []⟩)
    (.Triple ⟨attr_plain, 0, ["e", "v"], [], ⟨0, 0⟩⟩)
    ["x"] ["v"] []

/-- The transaction feeding `c1_tree`: attribute 1 holds one triple
`(e#10, 7)`. -/
def c1_tx : SessionTx :=
  { tx0 with triple_a_scan := fun a => if a == 1 then [.ok (1, 10, .num 7)] else [] }

/-- The operator tree of the missing elimination in the multi-row
`InlineFixed` join: the join's own eliminate set contains `z`. -/
def c1_tree2 : RelAlgebra :=
  .Join (.Fixed ⟨["x"], [[.num 7]], []⟩)
    (.Fixed ⟨["y", "z"], [[.num 7, .num 1], [.num 7, .num 2]], []⟩)
    ["x"] ["y"] ["z"]

/-- C1: the claim states that every produced tuple's arity equals the length
of the node's `bindings_after_eliminate()`, in particular for a Triple joined
on its value column with an unindexed non-reference attribute
(`v_no_index_join`) and for an `InnerJoin` on a multi-row `InlineFixed`.
The code violates the invariant in exactly those two places: `v_no_index_join`
pushes only the stored entity id (one column instead of the `[e, v]` pair
every sibling strategy pushes), producing arity-2 tuples under a length-3
binding vector; and the multi-row `InlineFixed` join skips
`eliminate_from_tuple`, producing arity-3 tuples under a length-2 binding
vector. -/
theorem c1_arity_invariant_fails_on_code :
    (RelAlgebra.iter c1_tx ops0 none [] c1_tree =
        some (.ok [.ok [.num 7, .entity 10]]) ∧
      (RelAlgebra.bindings_after_eliminate c1_tree).length = 3) ∧
    (RelAlgebra.iter tx0 ops0 none [] c1_tree2 =
        some (.ok [.ok [.num 7, .num 7, .num 1], .ok [.num 7, .num 7, .num 2]]) ∧
      (RelAlgebra.bindings_after_eliminate c1_tree2).length = 2) :=
  ⟨⟨by decide, by decide⟩, ⟨by decide, by decide⟩⟩

/-- A predicate fixture that fails on the tuple `[1]` and accepts every other
tuple. -/
def pred_err_on_one : Expr :=
  .mk (fun _ => .ok .null)
    (fun t => if t = [DataValue.num 1] then .error (.Forwarded "boom") else .ok true)
    (fun _ => .error (.Forwarded "nb"))
    []

/-- A stored-relation fixture holding the rows `[1]` and `[2]`. -/
def c3_storage : RelationMetadata :=
  ⟨"rel", fun _ => [.ok [.num 1], .ok [.num 2]], fun _ _ => [], fun _ _ _ _ => []⟩

/-- A `Filter` over that stored relation whose predicate errors on the first
row. -/
def c3_tree : RelAlgebra :=
  .Filter (.Relation ⟨["x"], c3_storage, []⟩) [pred_err_on_one] []

/-- C3 (counterexample): the claim states that after yielding an error item
an operator's sequence yields no further items, in particular for a `Filter`
whose predicate errors on some tuple.  On this concrete `Filter` pipeline the
predicate errors on the first tuple, and the sequence still yields the second
tuple after the error item — the error is not last. -/
theorem c3_error_not_terminating_counterexample :
    RelAlgebra.iter tx0 ops0 none [] c3_tree =
      some (.ok [.error (.Forwarded "boom"), .ok [.num 2]]) := by decide

/-- C3 (amended): a `Filter` transforms its upstream sequence item by item:
an upstream error is forwarded in place as a single error item, a predicate
error on a tuple becomes that tuple's single error item, and iteration
continues with the remaining upstream items; it is the consumer that stops at
the first error, not the produced sequence. -/
theorem c3_filter_forwards_errors_in_place :
    ∀ (parent : RelAlgebra) (pred : List Expr) (el : List Symbol)
      (tx : SessionTx) (ops : ExprOps) (epoch : Option Nat)
      (ud : List DerivedRelStoreId),
      RelAlgebra.iter tx ops epoch ud (.Filter parent pred el) =
        (RelAlgebra.iter tx ops epoch ud parent).map
          (fun r => r.map (filtered_transform pred
            (get_eliminate_indices parent.bindings_after_eliminate el))) := by
  intro parent pred el tx ops epoch ud
  cases h : RelAlgebra.iter tx ops epoch ud parent with
  | none => simp [RelAlgebra.iter, h]
  | some r => cases r <;> simp [RelAlgebra.iter, h, Except.map]

/-- C9: a spread (`is_multi`) `Unification` evaluates its expression on each
input tuple; a non-list value yields the `BadSpreadUnification` error item
("Invalid spread unification") carrying the node's span, and a list value
yields one output per element in order, each the input tuple with the element
appended and elimination applied. -/
theorem c9_spread_unification :
    ∀ (parent : RelAlgebra) (binding : Symbol) (expr : Expr) (el : List Symbol)
      (span : SourceSpan) (tx : SessionTx) (ops : ExprOps) (epoch : Option Nat)
      (ud : List DerivedRelStoreId),
      (RelAlgebra.iter tx ops epoch ud
          (.Unification parent binding expr true el span) =
        (RelAlgebra.iter tx ops epoch ud parent).map (fun r => r.map (fun items =>
          items.flatMap (fun x => match x with
            | .error e => [.error e]
            | .ok tuple =>
              match expr.eval tuple with
              | .error e => [.error e]
              | .ok v =>
                match v.get_list with
                | none => [.error (.BadSpreadUnification span)]
                | some results =>
                  results.map (fun result =>
                    .ok (eliminate_from_tuple (tuple ++ [result])
                      (get_eliminate_indices
                        (parent.bindings_after_eliminate ++ [binding]) el))))))) ∧
      Err.message (.BadSpreadUnification span) = "Invalid spread unification" := by
  intro parent binding expr el span tx ops epoch ud
  refine ⟨?_, rfl⟩
  cases h : RelAlgebra.iter tx ops epoch ud parent with
  | none => simp [RelAlgebra.iter, h]
  | some r =>
    cases r <;>
      simp [RelAlgebra.iter, h, Except.map, unification_transform]

/-- A derived store fixture (id 5) whose epoch-indexed scans are all empty
but whose epoch-less `scan_prefix` finds the row `[7]`. -/
def c2_store_full : DerivedRelStore :=
  ⟨5, "r", fun _ => [], fun _ _ => [], fun _ _ _ _ => [], fun _ => [.ok [.num 7]]⟩

/-- The same derived store fixture with an empty epoch-less `scan_prefix`. -/
def c2_store_empty : DerivedRelStore :=
  ⟨5, "r", fun _ => [], fun _ _ => [], fun _ _ _ _ => [], fun _ => []⟩

/-- A `NegJoin` whose right side is a `Derived` node over the given store. -/
def c2_tree (st : DerivedRelStore) : RelAlgebra :=
  .NegJoin (.Fixed ⟨["x"], [[.num 7]], []⟩) (.Derived ⟨["y"], st, []⟩)
    ["x"] ["y"] []

/-- C2 (counterexample): the claim states that in the negated-join mode a
`Derived` node at `epoch = Some 0` with its id in `use_delta` behaves as
empty regardless of stored contents.  On these two pipelines — identical
except for the store contents — the outputs differ at `epoch = Some 0` with
id 5 in `use_delta`: the matching stored row is consulted through the
epoch-less `scan_prefix` and drops the left tuple. -/
theorem c2_neg_join_ignores_epoch_counterexample :
    RelAlgebra.iter tx0 ops0 (some 0) [5] (c2_tree c2_store_full) =
        some (.ok []) ∧
      RelAlgebra.iter tx0 ops0 (some 0) [5] (c2_tree c2_store_empty) =
        some (.ok [.ok [.num 7]]) :=
  ⟨by decide, by decide⟩

/-- Congruence of the `Derived` prefix-join driver in the store: two stores
agreeing on the epoch-indexed prefix scans at the selected scan epoch drive
identical outputs. -/
theorem DerivedRA.pfx_join_go_congr (b : List Symbol) (S S2 : DerivedRelStore)
    (fs : List Expr) (ops : ExprOps) (l2p : List Nat) (rjiLen : Nat) (se : Nat)
    (h1 : ∀ p, S2.scan_pfx_for_epoch p se = S.scan_pfx_for_epoch p se)
    (h2 : ∀ p l u, S2.scan_bounded_pfx_for_epoch p l u se =
      S.scan_bounded_pfx_for_epoch p l u se) :
    ∀ (src : Bool) (items : List Item),
      DerivedRA.pfx_join_go ⟨b, S2, fs⟩ ops l2p rjiLen se src items =
        DerivedRA.pfx_join_go ⟨b, S, fs⟩ ops l2p rjiLen se src items := by
  intro src items
  induction items generalizing src with
  | nil => rfl
  | cons x rest ih =>
    cases x with
    | error e => simp only [DerivedRA.pfx_join_go, ih]
    | ok tuple => simp only [DerivedRA.pfx_join_go, h1, h2, ih]

/-- C2 (amended): the epoch discipline of the claim holds for the full scan
and for the prefix join (empty output at `epoch = Some 0` for a delta
relation, and all scans issued at `scan_epoch = e-1` for a delta relation at
`Some e`, `0` otherwise), but the negated join ignores `epoch` and
`use_delta` entirely: it consults only the epoch-less `scan_prefix` of the
store, for every epoch and delta set. -/
theorem c2_derived_epoch_discipline :
    ∀ (b : List Symbol) (S : DerivedRelStore) (fs : List Expr)
      (epoch : Option Nat) (ud : List DerivedRelStoreId),
      (epoch = some 0 → ud.contains S.id = true →
        DerivedRA.iter ⟨b, S, fs⟩ epoch ud = []) ∧
      (∀ S2 : DerivedRelStore, S2.id = S.id →
        S2.scan_all_for_epoch
            (DerivedRA.scan_epoch_of epoch (ud.contains S.id)) =
          S.scan_all_for_epoch
            (DerivedRA.scan_epoch_of epoch (ud.contains S.id)) →
        DerivedRA.iter ⟨b, S2, fs⟩ epoch ud = DerivedRA.iter ⟨b, S, fs⟩ epoch ud) ∧
      (∀ (lefts : List Item) (lji rji elim : List Nat),
        epoch = some 0 → ud.contains S.id = true →
        DerivedRA.pfx_join ⟨b, S, fs⟩ ops0 lefts lji rji elim epoch ud = []) ∧
      (∀ (S2 : DerivedRelStore) (ops : ExprOps) (lefts : List Item)
          (lji rji elim : List Nat), S2.id = S.id →
        (∀ p, S2.scan_pfx_for_epoch p
            (DerivedRA.scan_epoch_of epoch (ud.contains S.id)) =
          S.scan_pfx_for_epoch p
            (DerivedRA.scan_epoch_of epoch (ud.contains S.id))) →
        (∀ p l u, S2.scan_bounded_pfx_for_epoch p l u
            (DerivedRA.scan_epoch_of epoch (ud.contains S.id)) =
          S.scan_bounded_pfx_for_epoch p l u
            (DerivedRA.scan_epoch_of epoch (ud.contains S.id))) →
        DerivedRA.pfx_join ⟨b, S2, fs⟩ ops lefts lji rji elim epoch ud =
          DerivedRA.pfx_join ⟨b, S, fs⟩ ops lefts lji rji elim epoch ud) ∧
      (∀ (S2 : DerivedRelStore) (lefts : List Item) (lji rji elim : List Nat),
        (∀ p, S2.scan_pfx p = S.scan_pfx p) →
        DerivedRA.neg_join ⟨b, S2, fs⟩ lefts lji rji elim =
          DerivedRA.neg_join ⟨b, S, fs⟩ lefts lji rji elim) ∧
      (∀ (f : InlineFixedRA) (d : DerivedRA) (lk rk el : List Symbol)
          (tx : SessionTx) (ops : ExprOps) (epoch2 : Option Nat)
          (ud2 : List DerivedRelStoreId),
        RelAlgebra.iter tx ops epoch ud
            (.NegJoin (.Fixed f) (.Derived d) lk rk el) =
          RelAlgebra.iter tx ops epoch2 ud2
            (.NegJoin (.Fixed f) (.Derived d) lk rk el)) := by
  intro b S fs epoch ud
  refine ⟨?_, ?_, ?_, ?_, ?_, ?_⟩
  · intro h0 hmem
    subst h0
    unfold DerivedRA.iter
    refine if_pos ?_
    show ((some 0 : Option Nat) == some 0 && ud.contains S.id) = true
    rw [hmem]
    rfl
  · intro S2 hid hagree
    simp only [DerivedRA.iter, hid, hagree]
  · intro lefts lji rji elim h0 hmem
    subst h0
    unfold DerivedRA.pfx_join
    refine if_pos ?_
    show ((some 0 : Option Nat) == some 0 && ud.contains S.id) = true
    rw [hmem]
    rfl
  · intro S2 ops lefts lji rji elim hid hp hbp
    simp only [DerivedRA.pfx_join, hid]
    rw [DerivedRA.pfx_join_go_congr b S S2 fs ops _ _ _ hp hbp]
  · intro S2 lefts lji rji elim hp
    simp only [DerivedRA.neg_join, hp]
  · intro f d lk rk el tx ops epoch2 ud2
    rfl

/-- C2 (witness): the amended epoch-discipline theorem applied to the
concrete fixture store at `epoch = Some 0` with id 5 in the delta set. -/
theorem c2_derived_epoch_discipline_witness :
    DerivedRA.iter ⟨["y"], c2_store_empty, []⟩ (some 0) [5] = [] ∧
      DerivedRA.neg_join ⟨["y"], c2_store_full, []⟩ [.ok [.num 7]] [0] [0] [] =
        DerivedRA.neg_join ⟨["y"], c2_store_full, []⟩ [.ok [.num 7]] [0] [0] [] := by
  refine ⟨(c2_derived_epoch_discipline ["y"] c2_store_empty [] (some 0) [5]).1
    rfl (by decide), ?_⟩
  exact (c2_derived_epoch_discipline ["y"] c2_store_full [] (some 0) [5]).2.2.2.2.1
    c2_store_full [.ok [.num 7]] [0] [0] [] (fun p => rfl)

/-- Membership in a filter by non-containment. -/
theorem mem_filter_nc {l el : List Symbol} {x : Symbol} :
    x ∈ l.filter (fun b => !el.contains b) ↔ x ∈ l ∧ x ∉ el := by
  simp [List.mem_filter]

/-- After-eliminate bindings are a subset of before-eliminate bindings. -/
theorem bindings_after_subset_before (r : RelAlgebra) (x : Symbol)
    (hx : x ∈ r.bindings_after_eliminate) : x ∈ r.bindings_before_eliminate := by
  cases r <;>
    simp only [RelAlgebra.bindings_after_eliminate,
      RelAlgebra.bindings_before_eliminate] at hx ⊢ <;>
    first
      | exact hx
      | exact (mem_filter_nc.mp hx).1

/-- Running the elimination pass can only shrink the after-eliminate binding
set of a node. -/
theorem eliminate_shrinks :
    ∀ (r : RelAlgebra) (used : List Symbol) (x : Symbol),
      x ∈ (r.eliminate_temp_vars used).bindings_after_eliminate →
      x ∈ r.bindings_after_eliminate := by
  intro r
  induction r with
  | Fixed f =>
    intro used x hx
    simp only [RelAlgebra.eliminate_temp_vars, InlineFixedRA.do_eliminate_temp_vars,
      RelAlgebra.bindings_after_eliminate] at hx ⊢
    rw [mem_filter_nc] at hx ⊢
    exact ⟨hx.1, fun hc => hx.2 (List.mem_append_left _ hc)⟩
  | Triple t => exact fun _ _ h => h
  | Derived d => exact fun _ _ h => h
  | Relation r => exact fun _ _ h => h
  | Join left right lk rk el ihl ihr =>
    intro used x hx
    simp only [RelAlgebra.eliminate_temp_vars, RelAlgebra.bindings_after_eliminate] at hx ⊢
    rw [mem_filter_nc] at hx ⊢
    obtain ⟨hmem, hnel⟩ := hx
    rw [List.mem_append] at hmem ⊢
    exact ⟨hmem.imp (ihl _ _) (ihr _ _), fun hc => hnel (List.mem_append_left _ hc)⟩
  | NegJoin left right lk rk el ihl ihr =>
    intro used x hx
    simp only [RelAlgebra.eliminate_temp_vars, RelAlgebra.bindings_after_eliminate] at hx ⊢
    rw [mem_filter_nc] at hx ⊢
    exact ⟨ihl _ _ hx.1, fun hc => hx.2 (List.mem_append_left _ hc)⟩
  | Reorder rel new_order ih => exact fun _ _ h => h
  | Filter parent pred el ih =>
    intro used x hx
    simp only [RelAlgebra.eliminate_temp_vars, RelAlgebra.bindings_after_eliminate] at hx ⊢
    rw [mem_filter_nc] at hx ⊢
    exact ⟨ih _ _ hx.1, fun hc => hx.2 (List.mem_append_left _ hc)⟩
  | Unification parent binding expr is_multi el span ih =>
    intro used x hx
    simp only [RelAlgebra.eliminate_temp_vars, RelAlgebra.bindings_after_eliminate] at hx ⊢
    rw [mem_filter_nc] at hx ⊢
    obtain ⟨hmem, hnel⟩ := hx
    rw [List.mem_append] at hmem ⊢
    exact ⟨hmem.imp (ih _ _) id, fun hc => hnel (List.mem_append_left _ hc)⟩

/-- C4 (counterexample): the claim states that after
`eliminate_temp_vars(used)` the root's `bindings_after_eliminate()` is a
subset of `used` for every operator tree, including source-leaf roots.  A
`Triple` root does not eliminate at all: with `used = ∅` it still reports
both of its columns. -/
theorem c4_source_root_counterexample :
    ((RelAlgebra.Triple ⟨attr_plain, 0, ["e", "v"], [], ⟨0, 0⟩⟩).eliminate_temp_vars
        []).bindings_after_eliminate = ["e", "v"] ∧
      ("e" : Symbol) ∉ ([] : List Symbol) :=
  ⟨by decide, by decide⟩

/-- C4 (amended): the root-subset property `bindings_after_eliminate ⊆ used`
after `eliminate_temp_vars(used)` holds for every root that eliminates over
its full output — `Fixed`, `Join`, `NegJoin` and `Filter` roots — while the
source leaves (`Triple`, `Derived`, `Stored`), `Reorder` roots (which always
report their new order) and a `Unification` root's fresh binding are exempt:
those columns survive regardless of `used`. -/
theorem c4_eliminate_root_subset :
    ∀ (used : List Symbol) (x : Symbol),
      (∀ f : InlineFixedRA,
        x ∈ ((RelAlgebra.Fixed f).eliminate_temp_vars used).bindings_after_eliminate →
        x ∈ used) ∧
      (∀ (l r : RelAlgebra) (lk rk el : List Symbol),
        x ∈ ((RelAlgebra.Join l r lk rk el).eliminate_temp_vars
            used).bindings_after_eliminate →
        x ∈ used) ∧
      (∀ (l r : RelAlgebra) (lk rk el : List Symbol),
        x ∈ ((RelAlgebra.NegJoin l r lk rk el).eliminate_temp_vars
            used).bindings_after_eliminate →
        x ∈ used) ∧
      (∀ (p : RelAlgebra) (pred : List Expr) (el : List Symbol),
        x ∈ ((RelAlgebra.Filter p pred el).eliminate_temp_vars
            used).bindings_after_eliminate →
        x ∈ used) := by
  intro used x
  refine ⟨?_, ?_, ?_, ?_⟩
  · intro f hx
    simp only [RelAlgebra.eliminate_temp_vars, InlineFixedRA.do_eliminate_temp_vars,
      RelAlgebra.bindings_after_eliminate] at hx
    rw [mem_filter_nc] at hx
    by_contra hxu
    exact hx.2 (List.mem_append_right _ (mem_filter_nc.mpr ⟨hx.1, hxu⟩))
  · intro l r lk rk el hx
    simp only [RelAlgebra.eliminate_temp_vars, RelAlgebra.bindings_after_eliminate] at hx
    rw [mem_filter_nc] at hx
    obtain ⟨hmem, hnel⟩ := hx
    by_contra hxu
    refine hnel (List.mem_append_right _ ?_)
    simp only [elim_additions]
    refine mem_filter_nc.mpr ⟨?_, hxu⟩
    rw [List.mem_append] at hmem ⊢
    exact hmem.imp (eliminate_shrinks _ _ _) (eliminate_shrinks _ _ _)
  · intro l r lk rk el hx
    simp only [RelAlgebra.eliminate_temp_vars, RelAlgebra.bindings_after_eliminate] at hx
    rw [mem_filter_nc] at hx
    obtain ⟨hmem, hnel⟩ := hx
    by_contra hxu
    refine hnel (List.mem_append_right _ ?_)
    simp only [elim_additions]
    exact mem_filter_nc.mpr ⟨eliminate_shrinks _ _ _ hmem, hxu⟩
  · intro p pred el hx
    simp only [RelAlgebra.eliminate_temp_vars, RelAlgebra.bindings_after_eliminate] at hx
    rw [mem_filter_nc] at hx
    obtain ⟨hmem, hnel⟩ := hx
    by_contra hxu
    refine hnel (List.mem_append_right _ ?_)
    simp only [elim_additions]
    exact mem_filter_nc.mpr
      ⟨bindings_after_subset_before _ _ (eliminate_shrinks _ _ _ hmem), hxu⟩

/-- C4 (witness): the amended root-subset theorem applied at a concrete
`Fixed` root. -/
theorem c4_eliminate_root_subset_witness :
    ("a" : Symbol) ∈ (["a", "b"] : List Symbol) :=
  (c4_eliminate_root_subset ["a", "b"] "a").1 ⟨["a"], [], []⟩ (by decide)

/-- C5: when a Triple is the right side of a positive `InnerJoin` with
exactly the value column bound (one right join index, pointing at column 1),
the physical scan chosen is `triple_vref_a_scan(v_eid, a)` when the
attribute's value type is a reference type; otherwise `triple_av_scan(a, v)`
when the attribute is indexed; otherwise a temp-store materialization of the
full attribute scan keyed by value followed by a per-tuple prefix lookup —
with the `_before_` scan family substituted whenever `with_history` holds. -/
theorem c5_value_bound_triple_strategy :
    ∀ (a : Nat) (h idx : Bool) (nm : String) (vld : Validity)
      (bs : List Symbol) (fs : List Expr) (sp : SourceSpan)
      (lefts : List Item) (i : Nat) (tx : SessionTx) (ops : ExprOps)
      (elim : List Nat),
      (TripleRA.join ⟨⟨a, h, ⟨true⟩, ⟨idx⟩, nm⟩, vld, bs, fs, sp⟩ lefts [i] [1]
          tx ops elim =
        some (.ok (TripleRA.return_filtered_iter
          ⟨⟨a, h, ⟨true⟩, ⟨idx⟩, nm⟩, vld, bs, fs, sp⟩
          (okFlat (fun tuple =>
            match (tuple.getD i .null).get_entity_id with
            | none => [.error (.EntityIdExpected (tuple.getD i .null) sp)]
            | some v_eid =>
              (if h then tx.triple_vref_a_before_scan v_eid a vld
               else tx.triple_vref_a_scan v_eid a).map
                (fun x => match x with
                  | .error e => Except.error e
                  | .ok (_, _, e_id) =>
                    Except.ok (tuple ++ [EntityId.as_datavalue e_id,
                      EntityId.as_datavalue v_eid])))
            lefts) elim))) ∧
      (TripleRA.join ⟨⟨a, h, ⟨false⟩, ⟨true⟩, nm⟩, vld, bs, fs, sp⟩ lefts [i] [1]
          tx ops elim =
        some (.ok (TripleRA.return_filtered_iter
          ⟨⟨a, h, ⟨false⟩, ⟨true⟩, nm⟩, vld, bs, fs, sp⟩
          (okFlat (fun tuple =>
            (if h then tx.triple_av_before_scan a (tuple.getD i .null) vld
             else tx.triple_av_scan a (tuple.getD i .null)).map
              (fun x => match x with
                | .error e => Except.error e
                | .ok (_, val2, eid) =>
                  Except.ok (tuple ++ [EntityId.as_datavalue eid, val2])))
            lefts) elim))) ∧
      (TripleRA.join ⟨⟨a, h, ⟨false⟩, ⟨false⟩, nm⟩, vld, bs, fs, sp⟩ lefts [i] [1]
          tx ops elim =
        some (.ok
          (match TripleRA.v_no_index_collect
              (if h then tx.triple_a_before_scan a vld else tx.triple_a_scan a)
              (tx.new_temp_store ⟨0, 0⟩) with
          | .error e => [.error e]
          | .ok filled =>
            TripleRA.return_filtered_iter ⟨⟨a, h, ⟨false⟩, ⟨false⟩, nm⟩, vld, bs, fs, sp⟩
              (okFlat (fun tuple =>
                ( filled.scan_pfx [tuple.getD i .null]).map
                  (fun x => match x with
                    | .error e => Except.error e
                    | .ok found =>
                      Except.ok (tuple ++ [(found.getLast?).getD .null])))
                lefts) elim))) := by
  intro a h idx nm vld bs fs sp lefts i tx ops elim
  exact ⟨rfl, rfl, rfl⟩

/-- The claim's "no range pushdown at all" reference behaviour for the
entity-bound triple join: every left tuple takes the unbounded
`triple_ae_scan` family, with residual filters and elimination unchanged. -/
def e_join_no_pushdown (t : TripleRA) (lefts : List Item) (left_e_idx : Nat)
    (tx : SessionTx) (elim : List Nat) : List Item :=
  t.return_filtered_iter
    (okFlat (fun tuple =>
      match (tuple.getD left_e_idx .null).get_entity_id with
      | none => [.error (.EntityIdExpected (tuple.getD left_e_idx .null) t.span)]
      | some eid =>
        (if t.attr.with_history then tx.triple_ae_before_scan t.attr.id eid t.vld
         else tx.triple_ae_scan t.attr.id eid).map
          (fun x => match x with
            | .error e => Except.error e
            | .ok (_, eid2, val) =>
              Except.ok (tuple ++ [EntityId.as_datavalue eid2, val])))
      lefts) elim

/-- The claim's "no range pushdown at all" reference behaviour for the
cartesian triple scan: every left tuple takes the full `triple_a_scan`
family. -/
def cartesian_no_pushdown (t : TripleRA) (lefts : List Item) (tx : SessionTx)
    (elim : List Nat) : List Item :=
  t.return_filtered_iter
    (okFlat (fun tuple =>
      (if t.attr.with_history then tx.triple_a_before_scan t.attr.id t.vld
       else tx.triple_a_scan t.attr.id).map
        (fun x => match x with
          | .error e => Except.error e
          | .ok (_, e_id, val) =>
            Except.ok (tuple ++ [EntityId.as_datavalue e_id, val])))
      lefts) elim

/-- Success of collected bound evaluation given per-filter success. -/
theorem try_collect_eval_bound_ok (fs : List Expr) (tuple : Tuple)
    (h : ∀ f ∈ fs, ∃ r, f.eval_bound tuple = .ok r) :
    ∃ rs, try_collect (fun f => f.eval_bound tuple) fs = .ok rs := by
  induction fs with
  | nil => exact ⟨[], rfl⟩
  | cons f fs ih =>
    obtain ⟨r, hr⟩ := h f (List.mem_cons_self _ _)
    obtain ⟨rs, hrs⟩ := ih (fun g hg => h g (List.mem_cons_of_mem _ hg))
    refine ⟨r :: rs, ?_⟩
    simp [try_collect, hr, hrs]

/-- Under an always-open bound consolidation and panic-free bound
evaluation, the per-tuple bound step always falls through. -/
theorem e_join_bounds_step_open (t : TripleRA) (ops : ExprOps)
    (hcb : ∀ rs ss, ops.compute_bounds rs ss =
      .ok ([DataValue.null], [DataValue.bot]))
    (heb : ∀ f ∈ t.filters, ∀ tup, ∃ r, f.eval_bound tup = .ok r) :
    ∀ tuple, TripleRA.e_join_bounds_step t ops false tuple = some (false, none) := by
  intro tuple
  unfold TripleRA.e_join_bounds_step
  by_cases hfe : t.filters.isEmpty = true
  · simp [hfe]
  · obtain ⟨rs, hrs⟩ := try_collect_eval_bound_ok t.filters tuple (fun f hf => heb f hf tuple)
    simp [hfe, hrs, hcb]

/-- The `e_join` driver with a step that always falls through produces the
unbounded-scan pipeline. -/
theorem e_join_go_open (t : TripleRA) (i : Nat) (tx : SessionTx) (ops : ExprOps)
    (hstep : ∀ tuple, TripleRA.e_join_bounds_step t ops false tuple =
      some (false, none)) :
    ∀ lefts, TripleRA.e_join_go t i tx ops false lefts =
      some (okFlat (fun tuple =>
        match (tuple.getD i .null).get_entity_id with
        | none => [.error (.EntityIdExpected (tuple.getD i .null) t.span)]
        | some eid =>
          (if t.attr.with_history then tx.triple_ae_before_scan t.attr.id eid t.vld
           else tx.triple_ae_scan t.attr.id eid).map
            (fun x => match x with
              | .error e => Except.error e
              | .ok (_, eid2, val) =>
                Except.ok (tuple ++ [EntityId.as_datavalue eid2, val])))
        lefts) := by
  intro lefts
  induction lefts with
  | nil => rfl
  | cons x rest ih =>
    cases x with
    | error e =>
      simp [TripleRA.e_join_go, ih, okFlat]
    | ok tuple =>
      simp only [TripleRA.e_join_go, hstep, ih, Option.map_some, okFlat,
        List.flatMap_cons]
      cases (tuple.getD i .null).get_entity_id <;> rfl

/-- C6: in the Triple join bound computation a per-column bound is open
exactly when its lower bound is `Null` and its upper bound is `Bot`: the
bound step uses the computed head bound iff it is not `(Null, Bot)`; under
always-open bounds `e_join` degenerates to the unbounded `triple_ae_scan`
family, and a cartesian scan whose `compute_single_bound` does not tighten
degenerates to the full `triple_a_scan` family — i.e. open bounds behave as
if there were no range pushdown at all. -/
theorem c6_open_bounds_fall_through :
    ∀ (t : TripleRA) (ops : ExprOps) (tx : SessionTx) (lefts : List Item)
      (i : Nat) (elim : List Nat),
      (∀ (tuple : Tuple) (reduced : List Expr) (lb rb : List DataValue)
          (l0 r0 : DataValue),
        t.filters ≠ [] →
        try_collect (fun f => f.eval_bound tuple) t.filters = .ok reduced →
        ops.compute_bounds reduced (t.bindings.drop 1) = .ok (lb, rb) →
        lb.head? = some l0 → rb.head? = some r0 →
        TripleRA.e_join_bounds_step t ops false tuple =
          some (false,
            if l0 ≠ DataValue.null ∨ r0 ≠ DataValue.bot then some (l0, r0)
            else none)) ∧
      ((∀ rs ss, ops.compute_bounds rs ss =
          .ok ([DataValue.null], [DataValue.bot])) →
        (∀ f ∈ t.filters, ∀ tup, ∃ r, f.eval_bound tup = .ok r) →
        TripleRA.e_join t lefts i tx ops elim =
          some (e_join_no_pushdown t lefts i tx elim)) ∧
      ((∀ fs s, ops.compute_single_bound fs s = .ok none) →
        TripleRA.cartesian_join t lefts tx ops elim =
          .ok (cartesian_no_pushdown t lefts tx elim)) := by
  intro t ops tx lefts i elim
  refine ⟨?_, ?_, ?_⟩
  · intro tuple reduced lb rb l0 r0 hne hm hcb hl hr
    have hfe : t.filters.isEmpty = false := List.isEmpty_eq_false.mpr hne
    unfold TripleRA.e_join_bounds_step
    simp only [List.drop_one] at hcb
    simp [hfe, hm, hcb, hl, hr]
  · intro hcb heb
    unfold TripleRA.e_join
    rw [e_join_go_open t i tx ops (e_join_bounds_step_open t ops hcb heb) lefts]
    rfl
  · intro hcsb
    unfold TripleRA.cartesian_join
    have hgen : TripleRA.cartesian_general t lefts tx ops =
        okFlat (fun tuple =>
          (if t.attr.with_history then tx.triple_a_before_scan t.attr.id t.vld
           else tx.triple_a_scan t.attr.id).map
            (fun x => match x with
              | .error e => Except.error e
              | .ok (_, e_id, val) =>
                Except.ok (tuple ++ [EntityId.as_datavalue e_id, val])))
          lefts := by
      unfold TripleRA.cartesian_general
      simp [hcsb]
    cases hsi : (t.attr.indexing.should_index && !t.filters.isEmpty) with
    | false =>
      simp only [hsi, Bool.false_eq_true, if_false, hgen]
      rfl
    | true =>
      simp only [hsi, if_true, hcsb, hgen]
      rfl

/-- A reduced-expression fixture (returned by `eval_bound`). -/
def expr_token : Expr :=
  .mk (fun _ => .ok .null) (fun _ => .ok true) (fun _ => .error (.Forwarded "t")) []

/-- A filter fixture whose bound evaluation always succeeds. -/
def expr_bound_ok : Expr :=
  .mk (fun _ => .ok .null) (fun _ => .ok true) (fun _ => .ok expr_token) []

/-- A filter fixture whose bound evaluation always fails. -/
def expr_bound_bad : Expr :=
  .mk (fun _ => .ok .null) (fun _ => .ok true)
    (fun _ => .error (.Forwarded "bad bound")) []

/-- Bound-consolidation fixture that always reports the open bound. -/
def ops_open : ExprOps where
  compute_bounds := fun _ _ => .ok ([.null], [.bot])
  compute_single_bound := fun _ _ => .ok none

/-- A Triple fixture with one bound-evaluable filter on a plain attribute. -/
def t6 : TripleRA := ⟨attr_plain, 0, ["e", "v"], [expr_bound_ok], ⟨0, 0⟩⟩

/-- C6 (witness): the open-bound fall-through theorem applied at the concrete
fixtures. -/
theorem c6_open_bounds_fall_through_witness :
    TripleRA.e_join_bounds_step t6 ops_open false [] = some (false, none) ∧
      TripleRA.e_join t6 [.ok [.entity 3]] 0 tx0 ops_open [] =
        some (e_join_no_pushdown t6 [.ok [.entity 3]] 0 tx0 []) ∧
      TripleRA.cartesian_join t6 [.ok []] tx0 ops_open [] =
        .ok (cartesian_no_pushdown t6 [.ok []] tx0 []) := by
  refine ⟨?_, ?_, ?_⟩
  · have h := (c6_open_bounds_fall_through t6 ops_open tx0 [] 0 []).1 []
      [expr_token] [.null] [.bot] .null .bot (List.cons_ne_nil _ _) rfl rfl rfl rfl
    simpa using h
  · exact (c6_open_bounds_fall_through t6 ops_open tx0 [.ok [.entity 3]] 0 []).2.1
      (fun _ _ => rfl)
      (fun f hf tup => by
        have hf2 : f = expr_bound_ok := by simpa [t6] using hf
        subst hf2
        exact ⟨expr_token, rfl⟩)
  · exact (c6_open_bounds_fall_through t6 ops_open tx0 [.ok []] 0 []).2.2
      (fun _ _ => rfl)

/-- Once the `no_bound_found` flag is set, the `e_join` driver can no longer
panic. -/
theorem e_join_go_true_total (t : TripleRA) (i : Nat) (tx : SessionTx)
    (ops : ExprOps) :
    ∀ l, (TripleRA.e_join_go t i tx ops true l).isSome = true := by
  intro l
  induction l with
  | nil => rfl
  | cons x rest ih =>
    cases x with
    | error e => simp [TripleRA.e_join_go, ih]
    | ok tuple => simp [TripleRA.e_join_go, TripleRA.e_join_bounds_step, ih]

/-- C10: in `TripleRA::e_join` with a nonempty filter list the per-tuple
`eval_bound` results are unwrapped: a failing `eval_bound` on a left tuple
that is reached with the `no_bound_found` flag unset panics the iterator
(`none`) instead of yielding an error item; a `compute_bounds` failure is
merely logged — it sets the flag, after which the iterator can no longer
panic; and when `eval_bound` always succeeds (and `compute_bounds` reports
either an error or nonempty bound vectors) the iterator never panics. -/
theorem c10_e_join_eval_bound_panics :
    ∀ (t : TripleRA) (tx : SessionTx) (ops : ExprOps) (i : Nat) (elim : List Nat),
      (∀ (tup : Tuple) (rest : List Item) (e : Err),
        t.filters ≠ [] →
        try_collect (fun f => f.eval_bound tup) t.filters = .error e →
        TripleRA.e_join t (.ok tup :: rest) i tx ops elim = none) ∧
      (∀ (tup : Tuple) (rest : List Item) (rs : List Expr),
        t.filters ≠ [] →
        try_collect (fun f => f.eval_bound tup) t.filters = .ok rs →
        (∀ (rs2 : List Expr) (ss : List Symbol), ∃ e,
          ops.compute_bounds rs2 ss = .error e) →
        (TripleRA.e_join t (.ok tup :: rest) i tx ops elim).isSome = true) ∧
      ((∀ tup : Tuple, ∃ rs,
          try_collect (fun f => f.eval_bound tup) t.filters = .ok rs) →
        (∀ (rs2 : List Expr) (ss : List Symbol),
          (∃ e, ops.compute_bounds rs2 ss = .error e) ∨
          (∃ lb rb l0 r0, ops.compute_bounds rs2 ss = .ok (lb, rb) ∧
            lb.head? = some l0 ∧ rb.head? = some r0)) →
        ∀ lefts, (TripleRA.e_join t lefts i tx ops elim).isSome = true) := by
  intro t tx ops i elim
  have hstep_total : ∀ (nbf : Bool) (tuple : Tuple),
      (∀ tup : Tuple, ∃ rs,
        try_collect (fun f => f.eval_bound tup) t.filters = .ok rs) →
      (∀ (rs2 : List Expr) (ss : List Symbol),
        (∃ e, ops.compute_bounds rs2 ss = .error e) ∨
        (∃ lb rb l0 r0, ops.compute_bounds rs2 ss = .ok (lb, rb) ∧
          lb.head? = some l0 ∧ rb.head? = some r0)) →
      ∃ st, TripleRA.e_join_bounds_step t ops nbf tuple = some st := by
    intro nbf tuple heb hcb
    cases nbf with
    | true => exact ⟨(true, none), by simp [TripleRA.e_join_bounds_step]⟩
    | false =>
      by_cases hfe : t.filters.isEmpty = true
      · exact ⟨(false, none), by simp [TripleRA.e_join_bounds_step, hfe]⟩
      · obtain ⟨rs, hrs⟩ := heb tuple
        rcases hcb rs (t.bindings.drop 1) with ⟨e, hce⟩ | ⟨lb, rb, l0, r0, hok, hl, hr⟩
        · refine ⟨(true, none), ?_⟩
          simp only [List.drop_one] at hce
          simp [TripleRA.e_join_bounds_step, hfe, hrs, hce]
        · refine ⟨(false,
            if ¬l0 = DataValue.null ∨ ¬r0 = DataValue.bot then some (l0, r0)
            else none), ?_⟩
          simp only [List.drop_one] at hok
          simp [TripleRA.e_join_bounds_step, hfe, hrs, hok, hl, hr]
  refine ⟨?_, ?_, ?_⟩
  · intro tup rest e hne hm
    have hfe : t.filters.isEmpty = false := List.isEmpty_eq_false.mpr hne
    simp [TripleRA.e_join, TripleRA.e_join_go, TripleRA.e_join_bounds_step, hfe, hm]
  · intro tup rest rs hne hm hcb
    have hfe : t.filters.isEmpty = false := List.isEmpty_eq_false.mpr hne
    obtain ⟨e, hce⟩ := hcb rs (t.bindings.drop 1)
    simp only [List.drop_one] at hce
    have hstepEq : TripleRA.e_join_bounds_step t ops false tup = some (true, none) := by
      simp [TripleRA.e_join_bounds_step, hfe, hm, hce]
    obtain ⟨out, hout⟩ :=
      Option.isSome_iff_exists.mp (e_join_go_true_total t i tx ops rest)
    simp [TripleRA.e_join, TripleRA.e_join_go, hstepEq, hout]
  · intro heb hcb lefts
    have hgo : ∀ (nbf : Bool) (l : List Item),
        (TripleRA.e_join_go t i tx ops nbf l).isSome = true := by
      intro nbf l
      induction l generalizing nbf with
      | nil => rfl
      | cons x rest ih =>
        cases x with
        | error e =>
          obtain ⟨out, hout⟩ := Option.isSome_iff_exists.mp (ih nbf)
          simp [TripleRA.e_join_go, hout]
        | ok tuple =>
          obtain ⟨st, hst⟩ := hstep_total nbf tuple heb hcb
          obtain ⟨out, hout⟩ := Option.isSome_iff_exists.mp (ih st.1)
          simp [TripleRA.e_join_go, hst, hout]
    obtain ⟨out, hout⟩ := Option.isSome_iff_exists.mp (hgo false lefts)
    simp [TripleRA.e_join, hout]

/-- C10 (witness): the panic theorem applied at concrete fixtures — a failing
`eval_bound` panics the pipeline, and a failing `compute_bounds` with a
succeeding `eval_bound` does not. -/
theorem c10_e_join_eval_bound_panics_witness :
    TripleRA.e_join ⟨attr_plain, 0, ["e", "v"], [expr_bound_bad], ⟨0, 0⟩⟩
        [.ok [.entity 3]] 0 tx0 ops0 [] = none ∧
      (TripleRA.e_join t6 [.ok [.entity 3]] 0 tx0 ops0 []).isSome = true := by
  constructor
  · exact (c10_e_join_eval_bound_panics
      ⟨attr_plain, 0, ["e", "v"], [expr_bound_bad], ⟨0, 0⟩⟩ tx0 ops0 0 []).1
      [.entity 3] [] (.Forwarded "bad bound") (List.cons_ne_nil _ _) rfl
  · exact (c10_e_join_eval_bound_panics t6 tx0 ops0 0 []).2.1
      [.entity 3] [] [expr_token] (List.cons_ne_nil _ _) rfl
      (fun rs2 ss => ⟨.Forwarded "no bounds", rfl⟩)

/-- Lookup after one grouping insertion into the in-memory right mapping. -/
theorem lookup_addToMapping (m : List (List DataValue × List (List DataValue)))
    (kIns kQ : List DataValue) (row : List DataValue) :
    lookupMapping (addToMapping m kIns row) kQ =
      if kIns = kQ then
        match lookupMapping m kQ with
        | some rs => some (rs ++ [row])
        | none => some [row]
      else lookupMapping m kQ := by
  induction m with
  | nil => by_cases h : kIns = kQ <;> simp [addToMapping, lookupMapping, h]
  | cons p rest ih =>
    obtain ⟨k0, rs0⟩ := p
    by_cases h1 : k0 = kIns
    · subst h1
      by_cases h2 : k0 = kQ
      · subst h2
        simp [addToMapping, lookupMapping]
      · simp [addToMapping, lookupMapping, h2]
    · by_cases h2 : k0 = kQ
      · subst h2
        have hne : ¬kIns = k0 := fun h => h1 h.symm
        simp [addToMapping, lookupMapping, h1, hne]
      · simp [addToMapping, lookupMapping, h1, h2, ih]

/-- The key projection of a data row under the right join indices. -/
def proj_key (rji : List Nat) (row : List DataValue) : List DataValue :=
  rji.map (fun v => row.getD v .null)

/-- Lookup in the fold that builds the right mapping, generalized over the
initial map. -/
theorem lookup_foldl_mapping (rji : List Nat) (kQ : List DataValue) :
    ∀ (data : List (List DataValue))
      (m : List (List DataValue × List (List DataValue))),
      lookupMapping
          (data.foldl (fun m row => addToMapping m (proj_key rji row) row) m) kQ =
        match lookupMapping m kQ with
        | some rs => some (rs ++
            data.filter (fun row => decide (proj_key rji row = kQ)))
        | none =>
          if (data.filter (fun row => decide (proj_key rji row = kQ))).isEmpty
          then none
          else some (data.filter (fun row => decide (proj_key rji row = kQ))) := by
  intro data
  induction data with
  | nil =>
    intro m
    cases h : lookupMapping m kQ <;> simp [h]
  | cons row rest ih =>
    intro m
    rw [List.foldl_cons, ih, lookup_addToMapping]
    by_cases hk : proj_key rji row = kQ
    · have hf : List.filter (fun r => decide (proj_key rji r = kQ)) (row :: rest) =
          row :: List.filter (fun r => decide (proj_key rji r = kQ)) rest := by
        rw [List.filter_cons]
        simp [hk]
      rw [if_pos hk]
      cases lookupMapping m kQ with
      | none =>
        rw [hf]
        simp
      | some rs =>
        rw [hf]
        simp
    · have hf : List.filter (fun r => decide (proj_key rji r = kQ)) (row :: rest) =
          List.filter (fun r => decide (proj_key rji r = kQ)) rest := by
        rw [List.filter_cons]
        simp [hk]
      rw [if_neg hk]
      cases lookupMapping m kQ with
      | none => rw [hf]
      | some rs => rw [hf]

/-- Lookup in the built right mapping is exactly the key-filtered data (with
`none` for an absent key). -/
theorem lookup_buildRightMapping (data : List (List DataValue)) (rji : List Nat)
    (kQ : List DataValue) :
    lookupMapping (buildRightMapping data rji) kQ =
      if (data.filter (fun row => decide (proj_key rji row = kQ))).isEmpty
      then none
      else some (data.filter (fun row => decide (proj_key rji row = kQ))) := by
  have h := lookup_foldl_mapping rji kQ data []
  simpa [buildRightMapping, lookupMapping, proj_key] using h

/-- C7: the `InlineFixed` right-join strategy on the row count — zero rows
emit the empty sequence for every left input; one row is a key-equality
filter that appends the row's columns and then applies elimination; more
than one row builds the in-memory map keyed on the right-key projection and
each left tuple yields one output (with the row appended) per stored row
whose key projection equals the left tuple's key projection, in stored
order. -/
theorem c7_inline_fixed_join_strategies :
    ∀ (b el : List Symbol) (lefts : List Item) (lji rji elim : List Nat),
      (InlineFixedRA.join ⟨b, [], el⟩ lefts lji rji elim = []) ∧
      (∀ row, InlineFixedRA.join ⟨b, [row], el⟩ lefts lji rji elim =
        lefts.flatMap (fun x => match x with
          | .error e => [.error e]
          | .ok t =>
            if lji.map (fun v => t.getD v .null) = rji.map (fun v => row.getD v .null)
            then [.ok (eliminate_from_tuple (t ++ row) elim)]
            else [])) ∧
      (∀ d1 d2 ds, InlineFixedRA.join ⟨b, d1 :: d2 :: ds, el⟩ lefts lji rji elim =
        lefts.flatMap (fun x => match x with
          | .error e => [.error e]
          | .ok t =>
            ((d1 :: d2 :: ds).filter (fun row =>
                decide (proj_key rji row = lji.map (fun v => t.getD v .null)))).map
              (fun row => .ok (t ++ row)))) := by
  intro b el lefts lji rji elim
  refine ⟨rfl, fun row => rfl, ?_⟩
  intro d1 d2 ds
  have key : ∀ t : Tuple,
      (match lookupMapping (buildRightMapping (d1 :: d2 :: ds) rji)
          (lji.map (fun v => t.getD v .null)) with
        | none => ([] : List Item)
        | some rows => rows.map (fun rv => .ok (t ++ rv))) =
      ((d1 :: d2 :: ds).filter (fun row =>
          decide (proj_key rji row = lji.map (fun v => t.getD v .null)))).map
        (fun row => .ok (t ++ row)) := by
    intro t
    rw [lookup_buildRightMapping]
    by_cases hp : ((d1 :: d2 :: ds).filter (fun row =>
        decide (proj_key rji row =
          lji.map (fun v => t.getD v .null)))).isEmpty = true
    · rw [if_pos hp, List.isEmpty_iff.mp hp]
      rfl
    · rw [if_neg hp]
  have hjoin : InlineFixedRA.join ⟨b, d1 :: d2 :: ds, el⟩ lefts lji rji elim =
      lefts.flatMap (fun x => match x with
        | .error e => [.error e]
        | .ok t =>
          match lookupMapping (buildRightMapping (d1 :: d2 :: ds) rji)
              (lji.map (fun v => t.getD v .null)) with
          | none => ([] : List Item)
          | some rows => rows.map (fun rv => .ok (t ++ rv))) := rfl
  rw [hjoin]
  refine congrArg _ ?_
  funext x
  cases x with
  | error e => rfl
  | ok t => exact key t

/-- The negated-join verification loop over an all-`Ok` scan reports whether
some scanned row agrees with the left tuple on every join column. -/
theorem neg_scan_loop_ok (tuple : Tuple) (lji rji : List Nat) :
    ∀ rows : List Tuple,
      neg_scan_loop tuple lji rji (rows.map Except.ok) =
        .ok (rows.any (fun row =>
          (lji.zip rji).all (fun p => tuple.getD p.1 .null == row.getD p.2 .null))) := by
  intro rows
  induction rows with
  | nil => rfl
  | cons r rest ih =>
    simp only [List.map_cons, neg_scan_loop, List.any_cons]
    cases hcond : ((lji.zip rji).all
        (fun p => tuple.getD p.1 .null == r.getD p.2 .null)) with
    | true => simp
    | false => simp [ih]

/-- The truncated ranked walk is a `takeWhile` over the sorted pairs zipped
with their ranks. -/
theorem takeRanked_eq_takeWhile :
    ∀ (l : List (Nat × Nat)) (ord : Nat),
      takeRanked ord l =
        ((l.zip (List.range' ord l.length)).takeWhile
            (fun q => q.1.2 == q.2)).map (fun q => q.1.1) := by
  intro l
  induction l with
  | nil => intro ord; rfl
  | cons p rest ih =>
    intro ord
    simp only [takeRanked, List.length_cons, List.range'_succ, List.zip_cons_cons,
      List.takeWhile_cons]
    by_cases h : ord = p.2
    · have hb : (p.2 == ord) = true := by simp [h]
      rw [if_pos h, hb]
      simp only [if_true, List.map_cons, ih (ord + 1)]
    · have hb : (p.2 == ord) = false := by
        simp only [beq_eq_false_iff_ne, ne_eq]
        exact fun hc => h hc.symm
      rw [if_neg h, hb]
      simp

/-- C8: a `NegJoin` on a stored relation scans only the contiguous prefix
portion of `right_join_indices` (stopping at the first position whose value
differs from its sorted rank); a left tuple is dropped iff some row of that
prefix scan agrees with it on all join key columns (not just the prefix
ones); surviving left tuples pass through with only the `NegJoin`'s own
eliminations applied and no right-side columns added. -/
theorem c8_stored_neg_join :
    ∀ (r : RelationRA) (tx : SessionTx) (lefts : List Item)
      (lji rji elim : List Nat) (rows : Tuple → List Tuple),
      (∀ p, r.storage.scan_pfx tx p = (rows p).map Except.ok) →
      (RelationRA.neg_join r tx lefts lji rji elim =
        lefts.flatMap (fun x => match x with
          | .error e => [.error e]
          | .ok t =>
            if (rows ((left_to_pfx_indices_neg lji rji).map
                  (fun i => t.getD i .null))).any
                (fun row => (lji.zip rji).all
                  (fun p => t.getD p.1 .null == row.getD p.2 .null))
            then []
            else [.ok (eliminate_from_tuple t elim)])) ∧
      (left_to_pfx_indices_neg lji rji =
        (((sortPairsByVal rji.enum).zip
            (List.range' 0 (sortPairsByVal rji.enum).length)).takeWhile
          (fun q => q.1.2 == q.2)).map (fun q => lji.getD q.1.1 0)) := by
  intro r tx lefts lji rji elim rows hscan
  constructor
  · simp only [RelationRA.neg_join, okOptThen]
    induction lefts with
    | nil => rfl
    | cons x rest ih =>
      simp only [List.flatMap_cons, ih]
      cases x with
      | error e => rfl
      | ok t =>
        simp only [hscan, neg_scan_loop_ok]
        congr 1
        cases hany : (rows (List.map (fun i => List.getD t i DataValue.null)
            (left_to_pfx_indices_neg lji rji))).any
            (fun row => (lji.zip rji).all
              (fun p => List.getD t p.1 DataValue.null ==
                List.getD row p.2 DataValue.null)) <;>
          rfl
  · unfold left_to_pfx_indices_neg
    rw [takeRanked_eq_takeWhile, List.map_map]
    rfl

/-- C8 (witness): the stored negated-join theorem applied at a concrete
store, where the prefix scan finds the matching row `[7]` and so drops the
left tuple. -/
theorem c8_stored_neg_join_witness :
    RelationRA.neg_join
        ⟨["y"], ⟨"rel", fun _ => [], fun _ _ => [[DataValue.num 7]].map Except.ok,
          fun _ _ _ _ => []⟩, []⟩
        tx0 [.ok [.num 7], .ok [.num 8]] [0] [0] [] =
      [.ok [.num 8]] := by
  have h := (c8_stored_neg_join
    ⟨["y"], ⟨"rel", fun _ => [], fun _ _ => [[DataValue.num 7]].map Except.ok,
      fun _ _ _ _ => []⟩, []⟩
    tx0 [.ok [.num 7], .ok [.num 8]] [0] [0] []
    (fun _ => [[DataValue.num 7]]) (fun _ => rfl)).1
  rw [h]
  decide

end RelAlg
